import Mathlib

set_option maxHeartbeats 1000000

/- Verification development for the hidl-gen driver (main.cpp of the HIDL
   compiler).  The definitions below are a shallow embedding of the driver's
   pure decision logic: the build-file planner for -Landroidbp, the per-handler
   validators, the hash-printing handler, the Java-compatibility worklist
   traversal, and the output-path normalization in main().  External
   collaborators (hidl-util FQName, the Coordinator) are modelled from the
   specification where noted. -/

/-- Models hidl-util FQName.  Modelled from the spec: the FQName value type
(spec section 4.1) lives outside src/; its fields are the dotted package, the
version string "major.minor", and the (possibly empty, possibly dotted) local
name. -/
structure FQName where
  package : String
  version : String
  name : String
deriving DecidableEq, Inhabited

/-- Models FQName::string(): "package@version" with "::name" appended when the
local name is non-empty.  Modelled from the spec (section 3, FQName). -/
def FQName.string (fq : FQName) : String :=
  fq.package ++ "@" ++ fq.version ++ (if fq.name = "" then "" else "::" ++ fq.name)

/-- Models FQName::isFullyQualified(): the local name is present.  Modelled
from the spec (section 3, FQName invariants). -/
def FQName.isFullyQualified (fq : FQName) : Bool :=
  fq.name ≠ ""

/-- Models FQName::getPackageComponents(): the dotted package split at the
dots.  Modelled from the spec (section 4.1). -/
def FQName.getPackageComponents (fq : FQName) : List String :=
  fq.package.splitOn "."

/-- Models FQName::inPackage(prefix): component-wise prefix test of the given
dotted prefix against the package components.  Modelled from the spec
(section 4.1). -/
def FQName.inPackage (fq : FQName) (prefixPkg : String) : Bool :=
  (prefixPkg.splitOn ".").isPrefixOf fq.getPackageComponents

/-- Modelled from the spec: the package string of the hidl-util constant
gIBasePackageFqName (the IBase transport package; scenario S5 names it
android.hidl.base). -/
def gIBasePackageFqNameString : String := "android.hidl.base"

/-- Modelled from the spec: the package string of the hidl-util constant
gIManagerPackageFqName (the IServiceManager transport package). -/
def gIManagerPackageFqNameString : String := "android.hidl.manager"

/-- Embeds isHidlTransportPackage (main.cpp:330-333): the package component of
the FQName equals the IBase or the IServiceManager package string. -/
def isHidlTransportPackage (fq : FQName) : Bool :=
  fq.package == gIBasePackageFqNameString || fq.package == gIManagerPackageFqNameString

/-- Embeds isSystemProcessSupportedPackage (main.cpp:335-344): an exact
package@version string match against the fixed allow-list. -/
def isSystemProcessSupportedPackage (fq : FQName) : Bool :=
  fq.string == "android.hardware.graphics.allocator@2.0" ||
  fq.string == "android.hardware.graphics.common@1.0" ||
  fq.string == "android.hardware.graphics.mapper@2.0" ||
  fq.string == "android.hardware.graphics.mapper@2.1" ||
  fq.string == "android.hardware.renderscript@1.0" ||
  fq.string == "android.hidl.memory@1.0"

/-- Embeds isSystemPackage (main.cpp:346-351): membership in one of the four
system-owned prefix namespaces. -/
def isSystemPackage (fq : FQName) : Bool :=
  fq.inPackage "android.hidl" || fq.inPackage "android.system" ||
  fq.inPackage "android.frameworks" || fq.inPackage "android.hardware"

/-- Models a package-level named type as the planner sees it (AST handle,
spec section 3): its fully-qualified name (as a sort key), its local name, and
the isTypeDef predicate. -/
structure NamedType where
  fqNameStr : String
  localName : String
  isTypeDef : Bool
deriving DecidableEq, Inhabited

/-- Embeds packageNeedsJavaCode (main.cpp:279-307).  The result is an Option:
`none` models the CHECK(typesAST != nullptr) process abort, which fires when
the single interface file is `types` but no types AST was supplied. -/
def packageNeedsJavaCode (packageInterfaces : List FQName)
    (typesAST : Option (List NamedType)) : Option Bool :=
  if packageInterfaces.length = 0 then
    some false
  else if 1 < packageInterfaces.length ∨ (packageInterfaces.headD default).name ≠ "types" then
    some true
  else
    match typesAST with
    | none => none
    | some subTypes => some (subTypes.any (fun t => ! t.isTypeDef))

/-- Modelled from the spec's words, for refinement comparison with the
embedded packageNeedsJavaCode: "package has at least one interface AND (has
more than one file OR has any non-typedef sub-type in types)". -/
def packageNeedsJavaCodeSpec (packageInterfaces : List FQName)
    (typesAST : Option (List NamedType)) : Bool :=
  decide (1 ≤ packageInterfaces.length) &&
    (decide (1 < packageInterfaces.length) ||
      (match typesAST with
       | none => false
       | some subTypes => subTypes.any (fun t => ! t.isTypeDef)))

/-- Embeds makeLibraryName (main.cpp:180-182). -/
def makeLibraryName (fq : FQName) : String := fq.string

/-- Embeds makeHalFilegroupName (main.cpp:183-185). -/
def makeHalFilegroupName (fq : FQName) : String := fq.string ++ "_hal"

/-- Embeds makeJavaLibraryName (main.cpp:187-194). -/
def makeJavaLibraryName (fq : FQName) : String :=
  fq.package ++ "-V" ++ fq.version ++ "-java"

/-- Models the interface-name derivations of hidl-util FQName.  Modelled from
the spec (sections 4.1 and 6, filename schemas): the base name drops the
leading I of the interface name. -/
def FQName.getInterfaceBaseName (fq : FQName) : String := fq.name.drop 1

/-- Modelled from the spec (section 6): header name IHwFoo for IFoo. -/
def FQName.getInterfaceHwName (fq : FQName) : String := "IHw" ++ fq.getInterfaceBaseName

/-- Modelled from the spec (section 6): stub name BnHwFoo for IFoo. -/
def FQName.getInterfaceStubName (fq : FQName) : String := "BnHw" ++ fq.getInterfaceBaseName

/-- Modelled from the spec (section 6): proxy name BpHwFoo for IFoo. -/
def FQName.getInterfaceProxyName (fq : FQName) : String := "BpHw" ++ fq.getInterfaceBaseName

/-- Modelled from the spec (section 6): passthrough name BsFoo for IFoo. -/
def FQName.getInterfacePassthroughName (fq : FQName) : String := "Bs" ++ fq.getInterfaceBaseName

/-- Modelled from the spec (section 6): adapter name IFooAdapter for IFoo. -/
def FQName.getInterfaceAdapterName (fq : FQName) : String := fq.name ++ "Adapter"

/-- Models one emitted build rule of the generated Android.bp surface; only
the facets the planner decides (rule kind, name, language, out-files, library
markings, dependency lists) are carried. -/
inductive BpRule where
  | filegroup (name : String) (srcs : List String)
  | genrule (name : String) (language : String) (outs : List String)
  | ccLibrary (name : String) (markings : List String) (sharedLibs : List String)
      (exportHeaderLibs : List String)
  | javaLibrary (name : String) (libs : List String)
  | ccTest (name : String) (sharedLibs : List String)
  | comment (text : String)
deriving DecidableEq

/-- Embeds the LibraryLocation enum (main.cpp:407-412). -/
inductive LibraryLocation where
  | VENDOR
  | VENDOR_AVAILABLE
  | VNDK
deriving DecidableEq

/-- Embeds the location switch of generateAndroidBpCppLibSection
(main.cpp:432-455); each marking token stands for one emitted property, with
"vndk.enabled: true" and "vndk.support_system_process: true" standing for the
entries of the vndk block. -/
def cppLibLocationMarkings (loc : LibraryLocation) (packageFQName : FQName) : List String :=
  match loc with
  | .VENDOR => ["vendor: true"]
  | .VENDOR_AVAILABLE => ["vendor_available: true"]
  | .VNDK =>
    ["vendor_available: true", "vndk.enabled: true"] ++
      (if isSystemProcessSupportedPackage packageFQName then
        ["vndk.support_system_process: true"]
      else [])

/-- The fixed shared_libs base of every emitted cc_library (main.cpp:460-465). -/
def cppLibBaseSharedLibs : List String :=
  ["libhidlbase", "libhidltransport", "libhwbinder", "liblog", "libutils", "libcutils"]

/-- The fixed export_shared_lib_headers base of every emitted cc_library
(main.cpp:474-477). -/
def cppLibBaseExportHeaderLibs : List String :=
  ["libhidlbase", "libhidltransport", "libhwbinder", "libutils"]

/-- Embeds generateAndroidBpCppLibSection (main.cpp:414-484): the
generateDependencies closure is passed as the explicit list deps; the source
invokes it under both shared_libs and export_shared_lib_headers. -/
def generateAndroidBpCppLibSection (loc : LibraryLocation) (packageFQName : FQName)
    (libraryName : String) (deps : List String) : BpRule :=
  BpRule.ccLibrary libraryName (cppLibLocationMarkings loc packageFQName)
    (cppLibBaseSharedLibs ++ deps) (cppLibBaseExportHeaderLibs ++ deps)

/-- Embeds generateAndroidBpDependencyList (main.cpp:394-405): one library
name per imported package, skipping the transport packages. -/
def generateAndroidBpDependencyList (importedPackagesHierarchy : List FQName) : List String :=
  importedPackagesHierarchy.filterMap (fun p =>
    if isHidlTransportPackage p then none else some (makeLibraryName p))

/-- Embeds the c++-sources out-file closure (main.cpp:557-563). -/
def cppSourcesOuts (pathPrefix : String) (packageInterfaces : List FQName) : List String :=
  packageInterfaces.map (fun fq =>
    if fq.name = "types" then pathPrefix ++ "types.cpp"
    else pathPrefix ++ fq.name.drop 1 ++ "All.cpp")

/-- Embeds the c++-headers out-file closure (main.cpp:576-586). -/
def cppHeadersOuts (pathPrefix : String) (packageInterfaces : List FQName) : List String :=
  packageInterfaces.flatMap (fun fq =>
    if fq.name ≠ "types" then
      [pathPrefix ++ fq.name ++ ".h",
       pathPrefix ++ fq.getInterfaceHwName ++ ".h",
       pathPrefix ++ fq.getInterfaceStubName ++ ".h",
       pathPrefix ++ fq.getInterfaceProxyName ++ ".h",
       pathPrefix ++ fq.getInterfacePassthroughName ++ ".h"]
    else
      [pathPrefix ++ fq.name ++ ".h", pathPrefix ++ "hwtypes.h"])

/-- Embeds generateAndroidBpDefinitionLibsForPackage (main.cpp:535-606);
pathPrefix abstracts the Coordinator::getFilepath result and generateForTest
is the -t flag (main.cpp:57, 591). -/
def generateAndroidBpDefinitionLibsForPackage (generateForTest : Bool) (pathPrefix : String)
    (packageFQName : FQName) (packageInterfaces : List FQName)
    (importedPackagesHierarchy : List FQName) : List BpRule :=
  let libraryName := makeLibraryName packageFQName
  let genSourceName := libraryName ++ "_genc++"
  let genHeaderName := libraryName ++ "_genc++_headers"
  [BpRule.genrule genSourceName "c++-sources" (cppSourcesOuts pathPrefix packageInterfaces),
   BpRule.genrule genHeaderName "c++-headers" (cppHeadersOuts pathPrefix packageInterfaces)] ++
  (if isHidlTransportPackage packageFQName then
    [BpRule.comment (packageFQName.string ++ " is exported from libhidltransport")]
  else
    [generateAndroidBpCppLibSection
      (if !generateForTest && isSystemPackage packageFQName then
        LibraryLocation.VNDK
      else LibraryLocation.VENDOR_AVAILABLE)
      packageFQName libraryName
      (generateAndroidBpDependencyList importedPackagesHierarchy)])

/-- Insertion step of the sort on sub-types by fully-qualified name
(main.cpp:639-644). -/
def sortNamedTypesInsert (t : NamedType) : List NamedType → List NamedType
  | [] => [t]
  | u :: us => if t.fqNameStr ≤ u.fqNameStr then t :: u :: us else u :: sortNamedTypesInsert t us

/-- The sort on sub-types by fully-qualified name (main.cpp:639-644). -/
def sortNamedTypes : List NamedType → List NamedType
  | [] => []
  | t :: ts => sortNamedTypesInsert t (sortNamedTypes ts)

/-- Embeds the per-interface java out-file closure (main.cpp:630-653): a
non-types interface yields its own .java file; the types entry yields one
.java file per non-typedef sub-type, sorted by fully-qualified name.  `none`
models the CHECK(typesAST != nullptr) abort. -/
def javaGenOuts (pathPrefix : String) (typesAST : Option (List NamedType)) :
    List FQName → Option (List String)
  | [] => some []
  | fq :: rest =>
    if fq.name ≠ "types" then
      (javaGenOuts pathPrefix typesAST rest).map
        (fun os => (pathPrefix ++ fq.name ++ ".java") :: os)
    else
      match typesAST with
      | none => none
      | some subTypes =>
        (javaGenOuts pathPrefix typesAST rest).map (fun os =>
          ((sortNamedTypes subTypes).filterMap (fun t =>
            if t.isTypeDef then none else some (pathPrefix ++ t.localName ++ ".java"))) ++ os)

/-- Embeds generateAndroidBpJavaLibsForPackage (main.cpp:608-671). -/
def generateAndroidBpJavaLibsForPackage (pathPrefix : String) (packageFQName : FQName)
    (packageInterfaces : List FQName) (importedPackagesHierarchy : List FQName)
    (typesAST : Option (List NamedType)) : Option (List BpRule) :=
  let libraryName := makeJavaLibraryName packageFQName
  let genJavaName := libraryName ++ "_gen_java"
  (javaGenOuts pathPrefix typesAST packageInterfaces).map (fun outs =>
    [BpRule.genrule genJavaName "java" outs,
     BpRule.javaLibrary libraryName
       ("hwbinder" :: importedPackagesHierarchy.map makeJavaLibraryName)])

/-- Embeds the java-constants out-file closure (main.cpp:701-707): the C++
`static bool once` is a process-lifetime flag, threaded here explicitly; the
closure runs once per package interface, emitting Constants.java only on the
very first run in the whole invocation. -/
def javaConstantsOnce (pathPrefix : String) : List FQName → Bool → (List String × Bool)
  | [], once => ([], once)
  | _ :: rest, once =>
    if once then javaConstantsOnce pathPrefix rest once
    else
      let r := javaConstantsOnce pathPrefix rest true
      ((pathPrefix ++ "Constants.java") :: r.1, r.2)

/-- Embeds generateAndroidBpJavaExportsForPackage (main.cpp:673-717); the
caller guarantees a non-empty exported-types list (CHECK at line 683). -/
def generateAndroidBpJavaExportsForPackage (pathPrefix : String) (packageFQName : FQName)
    (packageInterfaces : List FQName) (once : Bool) : (List BpRule × Bool) :=
  let libraryName := makeJavaLibraryName packageFQName
  let constantsLibraryName := libraryName ++ "-constants"
  let genConstantsName := constantsLibraryName ++ "_gen_java"
  let r := javaConstantsOnce pathPrefix packageInterfaces once
  ([BpRule.genrule genConstantsName "java-constants" r.1,
    BpRule.javaLibrary constantsLibraryName []],
   r.2)

/-- Set insertion on FQNames ordered by their string form, as std::set with
FQName::operator< does (main.cpp:732-733). -/
def insertFQ (x : FQName) : List FQName → List FQName
  | [] => [x]
  | y :: ys =>
    if x.string < y.string then x :: y :: ys
    else if x = y then y :: ys
    else y :: insertFQ x ys

/-- Embeds the adapter-helper dependency loop (main.cpp:778-796): walk the
imported-packages hierarchy, skip the package itself, query
Coordinator::isTypesOnlyPackage (`none` models a query error, which aborts
the generator), skip types-only imports, and add "<library>-adapter-helper". -/
def adapterHelperDeps (packageFQName : FQName) (isTypesOnlyPkg : FQName → Option Bool) :
    List FQName → Option (List String)
  | [] => some []
  | p :: ps =>
    if p = packageFQName then adapterHelperDeps packageFQName isTypesOnlyPkg ps
    else
      match isTypesOnlyPkg p with
      | none => none
      | some true => adapterHelperDeps packageFQName isTypesOnlyPkg ps
      | some false =>
        (adapterHelperDeps packageFQName isTypesOnlyPkg ps).map
          (fun ds => (makeLibraryName p ++ "-adapter-helper") :: ds)

/-- Embeds the c++-adapter-sources out-file closure (main.cpp:746-750). -/
def adapterSourcesOuts (pathPrefix : String) (packageInterfaces : List FQName) : List String :=
  packageInterfaces.filterMap (fun fq =>
    if fq.name ≠ "types" then some (pathPrefix ++ fq.getInterfaceAdapterName ++ ".cpp")
    else none)

/-- Embeds the c++-adapter-headers out-file closure (main.cpp:761-765). -/
def adapterHeadersOuts (pathPrefix : String) (packageInterfaces : List FQName) : List String :=
  packageInterfaces.filterMap (fun fq =>
    if fq.name ≠ "types" then some (pathPrefix ++ fq.getInterfaceAdapterName ++ ".h")
    else none)

/-- Embeds generateAndroidBpAdapterLibsForPackage (main.cpp:719-832). -/
def generateAndroidBpAdapterLibsForPackage (pathPrefix : String) (packageFQName : FQName)
    (packageInterfaces : List FQName) (importedPackagesHierarchy : List FQName)
    (isTypesOnlyPkg : FQName → Option Bool) : Option (List BpRule) :=
  let adapterName := makeLibraryName packageFQName ++ "-adapter"
  let genAdapterName := adapterName ++ "_genc++"
  let adapterHelperName := adapterName ++ "-helper"
  let genAdapterSourcesName := adapterHelperName ++ "_genc++"
  let genAdapterHeadersName := adapterHelperName ++ "_genc++_headers"
  let adapterPackages := insertFQ packageFQName importedPackagesHierarchy
  (adapterHelperDeps packageFQName isTypesOnlyPkg importedPackagesHierarchy).map
    (fun helperDeps =>
      [BpRule.genrule genAdapterSourcesName "c++-adapter-sources"
         (adapterSourcesOuts pathPrefix packageInterfaces),
       BpRule.genrule genAdapterHeadersName "c++-adapter-headers"
         (adapterHeadersOuts pathPrefix packageInterfaces),
       generateAndroidBpCppLibSection LibraryLocation.VENDOR_AVAILABLE packageFQName
         adapterHelperName
         ("libhidladapter" :: generateAndroidBpDependencyList adapterPackages ++ helperDeps),
       BpRule.genrule genAdapterName "c++-adapter-main" ["main.cpp"],
       BpRule.ccTest adapterName
         (["libhidladapter", "libhidlbase", "libhidltransport", "libutils"] ++
          generateAndroidBpDependencyList adapterPackages ++ [adapterHelperName])])

/-- The java rule group of generateAndroidBpForPackage (main.cpp:901-916):
java library rules when the package is java compatible (a comment otherwise),
followed by the java-constants export rules when the package exports types (a
comment otherwise); `none` models the CHECK abort inside the java out-file
closure. -/
def androidBpJavaSection (pathPrefixSanitized : String) (packageFQName : FQName)
    (packageInterfaces : List FQName) (typesAST : Option (List NamedType))
    (importedPackagesHierarchy : List FQName) (exportedTypes : List String)
    (isJavaCompatible : Bool) (once : Bool) : Option (List BpRule × Bool) :=
  match (if isJavaCompatible then
      generateAndroidBpJavaLibsForPackage pathPrefixSanitized packageFQName
        packageInterfaces importedPackagesHierarchy typesAST
    else
      some [BpRule.comment
        "This package is not java compatible. Not creating java target."]) with
  | none => none
  | some jl =>
    if exportedTypes ≠ [] then
      some (jl ++ (generateAndroidBpJavaExportsForPackage pathPrefixSanitized packageFQName
          packageInterfaces once).1,
        (generateAndroidBpJavaExportsForPackage pathPrefixSanitized packageFQName
          packageInterfaces once).2)
    else
      some (jl ++ [BpRule.comment
        "This package does not export any types. Not creating java constants export."],
        once)

/-- The adapter rule group of generateAndroidBpForPackage (main.cpp:918-924):
the adapter libraries unless the package is types-only, in which case only a
comment. -/
def androidBpAdapterSection (pathPrefix : String) (packageFQName : FQName)
    (packageInterfaces : List FQName) (importedPackagesHierarchy : List FQName)
    (isTypesOnly : Bool) (isTypesOnlyPkg : FQName → Option Bool) : Option (List BpRule) :=
  if !isTypesOnly then
    generateAndroidBpAdapterLibsForPackage pathPrefix packageFQName packageInterfaces
      importedPackagesHierarchy isTypesOnlyPkg
  else
    some [BpRule.comment
      "This package has no interfaces. Not creating versioning adapter."]

/-- Embeds the emission phase of generateAndroidBpForPackage
(main.cpp:884-926), given the precomputed analysis results (the parse loop at
lines 852-875 is abstracted into the inputs); `none` models an aborted
generation (a CHECK abort or a failed isTypesOnlyPackage query).  The comment
texts are the source's skip comments. -/
def generateAndroidBpForPackage (generateForTest : Bool)
    (pathPrefix pathPrefixSanitized : String) (packageFQName : FQName)
    (packageInterfaces : List FQName) (typesAST : Option (List NamedType))
    (importedPackagesHierarchy : List FQName) (exportedTypes : List String)
    (isTypesOnly isJavaCompatible : Bool) (isTypesOnlyPkg : FQName → Option Bool)
    (once : Bool) : Option (List BpRule × Bool) :=
  match packageNeedsJavaCode packageInterfaces typesAST with
  | none => none
  | some needsJava =>
    match (if needsJava then
        androidBpJavaSection pathPrefixSanitized packageFQName packageInterfaces typesAST
          importedPackagesHierarchy exportedTypes isJavaCompatible once
      else
        some ([BpRule.comment "This package has nothing to generate Java code."], once)) with
    | none => none
    | some jp =>
      match androidBpAdapterSection pathPrefix packageFQName packageInterfaces
          importedPackagesHierarchy isTypesOnly isTypesOnlyPkg with
      | none => none
      | some ap =>
        some (BpRule.filegroup (makeHalFilegroupName packageFQName)
            (packageInterfaces.map (fun fq => fq.name ++ ".hal")) ::
          generateAndroidBpDefinitionLibsForPackage generateForTest pathPrefix packageFQName
            packageInterfaces importedPackagesHierarchy ++ jp.1 ++ ap, jp.2)

/-- Embeds the OutputMode enum (main.cpp:37-42). -/
inductive OutputMode where
  | NEEDS_DIR
  | NEEDS_FILE
  | NEEDS_SRC
  | NOT_NEEDED
deriving DecidableEq

/-- The C++ name.find('.') == npos test: no dot among the name's
characters. -/
def nameHasDot (name : String) : Bool :=
  name.data.contains '.'

/-- The C++ name.find("types.") == 0 test: the name starts with "types.". -/
def nameStartsWithTypesDot (name : String) : Bool :=
  "types.".data.isPrefixOf name.data

/-- Embeds validateForSource (main.cpp:1004-1036): package and version must
be present; a dotted local name is accepted only for the java language with
the types. extended syntax. -/
def validateForSource (fq : FQName) (language : String) : Bool :=
  if fq.package = "" then false
  else if fq.version = "" then false
  else if fq.name ≠ "" then
    if nameHasDot fq.name = false then true
    else if language ≠ "java" ∨ nameStartsWithTypesDot fq.name = false then false
    else true
  else true

/-- Embeds validateIsPackage (main.cpp:309-328): package and version must be
present and the local name empty. -/
def validateIsPackage (fq : FQName) (_language : String) : Bool :=
  if fq.package = "" then false
  else if fq.version = "" then false
  else if fq.name ≠ "" then false
  else true

/-- The three validation functions stored in the formats table: the source
validators, plus the unconditionally rejecting validator of the removed
makefile handler (main.cpp:1268-1271). -/
inductive ValidatorKind where
  | forSource
  | isPackage
  | makefileReject
deriving DecidableEq

/-- Dispatch of a ValidatorKind to its validation function; main.cpp:1488
passes the handler's own key as the language argument. -/
def runValidator : ValidatorKind → FQName → String → Bool
  | .forSource, fq, language => validateForSource fq language
  | .isPackage, fq, language => validateIsPackage fq language
  | .makefileReject, _, _ => false

/-- Models an OutputHandler table row (main.cpp:34-55): key, output-path
requirement and validator. -/
structure OutputHandlerM where
  key : String
  mOutputMode : OutputMode
  validator : ValidatorKind
deriving DecidableEq

/-- Embeds the formats table (main.cpp:1166-1295). -/
def formats : List OutputHandlerM := [
  ⟨"check", .NOT_NEEDED, .forSource⟩,
  ⟨"c++", .NEEDS_DIR, .forSource⟩,
  ⟨"c++-headers", .NEEDS_DIR, .forSource⟩,
  ⟨"c++-sources", .NEEDS_DIR, .forSource⟩,
  ⟨"export-header", .NEEDS_FILE, .isPackage⟩,
  ⟨"c++-impl", .NEEDS_DIR, .forSource⟩,
  ⟨"c++-impl-headers", .NEEDS_DIR, .forSource⟩,
  ⟨"c++-impl-sources", .NEEDS_DIR, .forSource⟩,
  ⟨"c++-adapter", .NEEDS_DIR, .forSource⟩,
  ⟨"c++-adapter-headers", .NEEDS_DIR, .forSource⟩,
  ⟨"c++-adapter-sources", .NEEDS_DIR, .forSource⟩,
  ⟨"c++-adapter-main", .NEEDS_DIR, .isPackage⟩,
  ⟨"java", .NEEDS_DIR, .forSource⟩,
  ⟨"java-constants", .NEEDS_DIR, .isPackage⟩,
  ⟨"vts", .NEEDS_DIR, .forSource⟩,
  ⟨"makefile", .NEEDS_SRC, .makefileReject⟩,
  ⟨"androidbp", .NEEDS_SRC, .isPackage⟩,
  ⟨"androidbp-impl", .NEEDS_DIR, .isPackage⟩,
  ⟨"hash", .NOT_NEEDED, .forSource⟩]

/-- The trailing-slash test of main.cpp:1451 and 1462 (back() == '/'),
expressed on the string's character list. -/
def endsWithSlash (s : String) : Bool :=
  s.data.getLast? == some '/'

/-- Append '/' unless the path already ends in one (main.cpp:1451-1453). -/
def ensureTrailingSlash (s : String) : String :=
  if endsWithSlash s then s else s ++ "/"

/-- Embeds the output-path switch of main (main.cpp:1441-1472): `none` models
usage() + exit(1) on a missing required -o value.  The C++ back() call is
defined only for non-empty strings; the NEEDS_SRC branch reads the root path
first when -o was absent. -/
def normalizeOutputPath (mode : OutputMode) (outputPath : String) (rootPath : String) :
    Option String :=
  match mode with
  | .NEEDS_DIR => if outputPath = "" then none else some (ensureTrailingSlash outputPath)
  | .NEEDS_FILE => if outputPath = "" then none else some outputPath
  | .NEEDS_SRC =>
    let p := if outputPath = "" then rootPath else outputPath
    some (ensureTrailingSlash p)
  | .NOT_NEEDED => some ""

/-- Models the Coordinator as the Java-compatibility traversal sees it
(main.cpp:218-277): parse yields the two AST queries used (isJavaCompatible
and getImportedPackages) and interfacesOf models
appendPackageInterfacesToVector; `none` is a failure. -/
structure JavaWorld where
  parse : FQName → Option (Bool × List FQName)
  interfacesOf : FQName → Option (List FQName)

/-- The result of the traversal: OK with the compatible flag, or an error
status. -/
inductive HStatus where
  | compatible (b : Bool)
  | error
deriving DecidableEq

/-- Embeds the unseen-interface push loop (main.cpp:264-271): every interface
of an imported package not yet seen is pushed on the todo stack and inserted
into seen.  The Lean list todo is the C++ vector read as a stack (list head =
vector back). -/
def pushUnseen : List FQName → List FQName → List FQName → (List FQName × List FQName)
  | [], todo, seen => (todo, seen)
  | i :: is, todo, seen =>
    if i ∈ seen then pushUnseen is todo seen
    else pushUnseen is (i :: todo) (i :: seen)

/-- Embeds the imported-package loop (main.cpp:255-272): enumerate each
imported package (a failed enumeration aborts with an error) and push its
unseen interfaces. -/
def expandImports (W : JavaWorld) : List FQName → List FQName → List FQName →
    Option (List FQName × List FQName)
  | [], todo, seen => some (todo, seen)
  | p :: ps, todo, seen =>
    match W.interfacesOf p with
    | none => none
    | some l =>
      expandImports W ps (pushUnseen l todo seen).1 (pushUnseen l todo seen).2

/-- Embeds the worklist loop of isPackageJavaCompatible (main.cpp:237-273)
with explicit fuel: `none` is fuel exhaustion (never reached from the bounded
worlds of the theorems), `some HStatus.error` the UNKNOWN_ERROR return, and
`some (HStatus.compatible b)` the OK return with *compatible = b. -/
def isPackageJavaCompatibleLoop (W : JavaWorld) : Nat → List FQName → List FQName →
    Option HStatus
  | _, [], _ => some (.compatible true)
  | 0, _ :: _, _ => none
  | fuel + 1, fq :: rest, seen =>
    match W.parse fq with
    | none => some .error
    | some (isJavaCompat, importedPackages) =>
      if !isJavaCompat then some (.compatible false)
      else
        match expandImports W importedPackages rest seen with
        | none => some .error
        | some r => isPackageJavaCompatibleLoop W fuel r.1 r.2

/-- Embeds isPackageJavaCompatible (main.cpp:218-277): the todo stack and the
seen set both start as the package's interfaces. -/
def isPackageJavaCompatible (W : JavaWorld) (fuel : Nat) (packageFQName : FQName) :
    Option HStatus :=
  match W.interfacesOf packageFQName with
  | none => some .error
  | some ifaces => isPackageJavaCompatibleLoop W fuel ifaces ifaces

/-- Reachability through the transitive import graph from the given root
interfaces: a root interface, or any interface of a package imported by a
reachable interface. -/
inductive Reaches (W : JavaWorld) (roots : List FQName) : FQName → Prop where
  | root {x : FQName} : x ∈ roots → Reaches W roots x
  | step {x y : FQName} {c : Bool} {imps l : List FQName} {p : FQName} :
      Reaches W roots y → W.parse y = some (c, imps) → p ∈ imps →
      W.interfacesOf p = some l → x ∈ l → Reaches W roots x

/-- An interface is Java-compatible when its parsed AST reports so. -/
def JavaCompat (W : JavaWorld) (x : FQName) : Prop :=
  ∀ c imps, W.parse x = some (c, imps) → c = true

/-- Count of the universe elements not yet seen; the termination measure of
the worklist. -/
def unseenLen : List FQName → List FQName → Nat
  | [], _ => 0
  | u :: us, seen => (if u ∈ seen then 0 else 1) + unseenLen us seen

/-- Models the Coordinator as the hash handler sees it: interface
enumeration, file resolution, file hashing and parse success.  Modelled from
the spec: Coordinator.cpp is not under src/ (spec sections 4.2 and 4.4). -/
structure HashWorld where
  interfacesOf : FQName → Option (List FQName)
  fileOf : FQName → Option String
  fileHash : String → String
  parseOk : FQName → Bool

/-- Embeds Coordinator::Enforce as used at main.cpp:1146-1147. -/
inductive Enforce where
  | DEFAULT
  | NO_HASH
deriving DecidableEq

/-- Models Coordinator::parse's hash gate.  Modelled from the spec (section
4.4): resolve and hash the file, consult the current.txt manifest, fail on a
digest mismatch unless the caller passed NO_HASH, then parse.  Returns the
AST's filename on success (all the hash handler reads from the AST). -/
def coordinatorParse (W : HashWorld) (manifest : FQName → Option String)
    (fq : FQName) (enforcement : Enforce) : Option String :=
  match W.fileOf fq with
  | none => none
  | some filename =>
    match manifest fq with
    | some expected =>
      if enforcement = .DEFAULT ∧ expected ≠ W.fileHash filename then none
      else if W.parseOk fq then some filename else none
    | none => if W.parseOk fq then some filename else none

/-- Embeds the per-interface print loop of generateHashOutput
(main.cpp:1145-1160): parse with NO_HASH enforcement, abort on a parse
failure, and emit one "<hex> <fqname>" line per interface, in order. -/
def hashLines (W : HashWorld) (manifest : FQName → Option String) :
    List FQName → Option (List String)
  | [] => some []
  | x :: xs =>
    match coordinatorParse W manifest x .NO_HASH with
    | none => none
    | some filename =>
      (hashLines W manifest xs).map
        (fun rest => (W.fileHash filename ++ " " ++ x.string) :: rest)

/-- Embeds generateHashOutput (main.cpp:1127-1163): a fully-qualified fqname
hashes just itself, a package fqname hashes every enumerated interface in
enumeration order. -/
def generateHashOutput (W : HashWorld) (manifest : FQName → Option String)
    (fq : FQName) : Option (List String) :=
  match (if fq.isFullyQualified then some [fq] else W.interfacesOf fq) with
  | none => none
  | some targets => hashLines W manifest targets

/-- A concrete planner run on the transport package android.hidl.base@1.0
with one interface and no exported types (used as a witness input). -/
def c4WitnessRun : Option (List BpRule × Bool) :=
  generateAndroidBpForPackage false "" "" ⟨"android.hidl.base", "1.0", ""⟩
    [⟨"android.hidl.base", "1.0", "IBase"⟩] none [] [] false true (fun _ => some false)
    false

/-- The rule list of the concrete witness run. -/
def c4WitnessRules : List BpRule := (c4WitnessRun.getD ([], false)).1

/-- A concrete two-interface package world for the hash handler: used as a
witness input, together with a manifest whose digests match nothing. -/
def c5WitnessWorld : HashWorld where
  interfacesOf := fun p =>
    if p = ⟨"a.h.foo", "1.0", ""⟩ then
      some [⟨"a.h.foo", "1.0", "types"⟩, ⟨"a.h.foo", "1.0", "IFoo"⟩]
    else none
  fileOf := fun x => if x.name = "types" then some "types.hal" else some "IFoo.hal"
  fileHash := fun f => if f = "types.hal" then "aaaa" else "bbbb"
  parseOk := fun _ => true

/-- A concrete two-package import world for the Java-compatibility traversal
(package a.b@1.0 has IFoo, which imports package a.c@1.0 with IBar); used as
a witness input. -/
def c3WitnessWorld : JavaWorld where
  parse := fun x =>
    if x = ⟨"a.b", "1.0", "IFoo"⟩ then some (true, [⟨"a.c", "1.0", ""⟩])
    else if x = ⟨"a.c", "1.0", "IBar"⟩ then some (true, []) else none
  interfacesOf := fun p =>
    if p = ⟨"a.b", "1.0", ""⟩ then some [⟨"a.b", "1.0", "IFoo"⟩]
    else if p = ⟨"a.c", "1.0", ""⟩ then some [⟨"a.c", "1.0", "IBar"⟩] else none

/-- Extracts the name and marking list of a cc_library rule (used to state
which cc_library rules a rule group emits). -/
def ccLibNameMarkings : BpRule → Option (String × List String)
  | .ccLibrary n ms _ _ => some (n, ms)
  | _ => none

/-- Claim C1 (counterexample): for a package whose only .hal file is the
single non-types interface IFoo, packageNeedsJavaCode returns true, while the
claim's defining formula (at least one interface AND (more than one file OR a
non-typedef sub-type in types)) yields false. -/
theorem claim_C1_counterexample :
    packageNeedsJavaCode [⟨"a.b", "1.0", "IFoo"⟩] none = some true ∧
    packageNeedsJavaCodeSpec [⟨"a.b", "1.0", "IFoo"⟩] none = false := by
  constructor <;> decide

/-- Claim C1 (amended): whenever packageNeedsJavaCode returns a value (no
CHECK abort), it returns true iff the package has at least one .hal file and
(it has more than one .hal file, or its single file is not the types file, or
the types file declares at least one non-typedef sub-type). -/
theorem claim_C1_main (packageInterfaces : List FQName)
    (typesAST : Option (List NamedType)) (b : Bool)
    (h : packageNeedsJavaCode packageInterfaces typesAST = some b) :
    b = true ↔
      (packageInterfaces ≠ [] ∧
        (1 < packageInterfaces.length ∨
         (packageInterfaces.headD default).name ≠ "types" ∨
         ∃ ts, typesAST = some ts ∧ ∃ t ∈ ts, t.isTypeDef = false)) := by
  unfold packageNeedsJavaCode at h
  split at h
  · rename_i h0
    have he : packageInterfaces = [] := List.length_eq_zero.mp h0
    cases h
    simp [he]
  · rename_i h0
    split at h
    · rename_i h1
      cases h
      have hne : packageInterfaces ≠ [] := by
        intro he
        exact h0 (by simp [he])
      simp only [true_iff]
      refine ⟨hne, ?_⟩
      rcases h1 with h1 | h1
      · exact Or.inl h1
      · exact Or.inr (Or.inl h1)
    · rename_i h1
      push_neg at h1
      obtain ⟨hlen, hname⟩ := h1
      have hne : packageInterfaces ≠ [] := by
        intro he
        exact h0 (by simp [he])
      cases typesAST with
      | none => cases h
      | some ts =>
        simp only [Option.some.injEq] at h
        subst h
        constructor
        · intro hb
          obtain ⟨t, ht, htd⟩ := List.any_eq_true.mp hb
          exact ⟨hne, Or.inr (Or.inr ⟨ts, rfl, t, ht, by simpa using htd⟩)⟩
        · rintro ⟨-, h2 | h2 | ⟨ts', hts', t, htmem, htd⟩⟩
          · omega
          · exact absurd hname h2
          · cases hts'
            exact List.any_eq_true.mpr ⟨t, htmem, by simp [htd]⟩

/-- Claim C1 (witness): the amended theorem at the concrete package whose
single file is types with one non-typedef sub-type. -/
theorem claim_C1_witness :
    true = true ↔
      (([⟨"a.b", "1.0", "types"⟩] : List FQName) ≠ [] ∧
        (1 < ([(⟨"a.b", "1.0", "types"⟩ : FQName)] : List FQName).length ∨
         (([(⟨"a.b", "1.0", "types"⟩ : FQName)] : List FQName).headD default).name ≠ "types" ∨
         ∃ ts, (some [(⟨"a.b@1.0::E", "E", false⟩ : NamedType)] :
            Option (List NamedType)) = some ts ∧ ∃ t ∈ ts, t.isTypeDef = false)) :=
  claim_C1_main [⟨"a.b", "1.0", "types"⟩] (some [⟨"a.b@1.0::E", "E", false⟩]) true
    (by decide)

/-- Claim C2: for a non-transport package, the definition-libs rule group
emits exactly one cc_library, named after the package; when the package is in
a system-owned prefix namespace and test mode is off it carries the VNDK
marking (vendor_available + vndk enabled), with support_system_process
exactly for the allow-listed packages; otherwise it carries
vendor_available: true.  No branch emits a plain vendor marking. -/
theorem claim_C2_main (generateForTest : Bool) (pathPrefix : String)
    (packageFQName : FQName) (packageInterfaces importedPackagesHierarchy : List FQName)
    (hnt : isHidlTransportPackage packageFQName = false) :
    ((generateAndroidBpDefinitionLibsForPackage generateForTest pathPrefix packageFQName
        packageInterfaces importedPackagesHierarchy).filterMap ccLibNameMarkings =
      [(makeLibraryName packageFQName,
        if !generateForTest && isSystemPackage packageFQName then
          ["vendor_available: true", "vndk.enabled: true"] ++
            (if isSystemProcessSupportedPackage packageFQName then
              ["vndk.support_system_process: true"]
            else [])
        else ["vendor_available: true"])]) ∧
    (∀ n ms, (n, ms) ∈ (generateAndroidBpDefinitionLibsForPackage generateForTest pathPrefix
        packageFQName packageInterfaces importedPackagesHierarchy).filterMap
          ccLibNameMarkings → "vendor: true" ∉ ms) := by
  have hmain : (generateAndroidBpDefinitionLibsForPackage generateForTest pathPrefix
      packageFQName packageInterfaces importedPackagesHierarchy).filterMap ccLibNameMarkings =
      [(makeLibraryName packageFQName,
        if !generateForTest && isSystemPackage packageFQName then
          ["vendor_available: true", "vndk.enabled: true"] ++
            (if isSystemProcessSupportedPackage packageFQName then
              ["vndk.support_system_process: true"]
            else [])
        else ["vendor_available: true"])] := by
    unfold generateAndroidBpDefinitionLibsForPackage
    rw [List.filterMap_append]
    cases hv : (!generateForTest && isSystemPackage packageFQName) <;>
      simp [hnt, hv, ccLibNameMarkings, generateAndroidBpCppLibSection, cppLibLocationMarkings]
  refine ⟨hmain, ?_⟩
  intro n ms hmem
  rw [hmain] at hmem
  simp only [List.mem_singleton, Prod.mk.injEq] at hmem
  obtain ⟨-, hms⟩ := hmem
  subst hms
  split
  · split <;> simp
  · simp

/-- Claim C2 (witness): the theorem at the allow-listed system package
android.hardware.graphics.mapper@2.0 with test mode off. -/
theorem claim_C2_witness :
    ((generateAndroidBpDefinitionLibsForPackage false "" ⟨"android.hardware.graphics.mapper", "2.0", ""⟩
        [] []).filterMap ccLibNameMarkings =
      [(makeLibraryName ⟨"android.hardware.graphics.mapper", "2.0", ""⟩,
        if !false && isSystemPackage ⟨"android.hardware.graphics.mapper", "2.0", ""⟩ then
          ["vendor_available: true", "vndk.enabled: true"] ++
            (if isSystemProcessSupportedPackage ⟨"android.hardware.graphics.mapper", "2.0", ""⟩ then
              ["vndk.support_system_process: true"]
            else [])
        else ["vendor_available: true"])]) ∧
    (∀ n ms, (n, ms) ∈ (generateAndroidBpDefinitionLibsForPackage false ""
        ⟨"android.hardware.graphics.mapper", "2.0", ""⟩ [] []).filterMap ccLibNameMarkings →
      "vendor: true" ∉ ms) :=
  claim_C2_main false "" ⟨"android.hardware.graphics.mapper", "2.0", ""⟩ [] [] (by decide)

/-- Claim C10: isHidlTransportPackage reads only the package component of the
FQName, so every version of the IBase or IServiceManager package counts as a
transport package; the support_system_process allow-list instead matches the
exact package@version string, so the VNDK marking of a different version of an
allow-listed package (mapper@3.0 versus mapper@2.0/2.1) omits
support_system_process. -/
theorem claim_C10_main :
    (∀ fq₁ fq₂ : FQName, fq₁.package = fq₂.package →
      isHidlTransportPackage fq₁ = isHidlTransportPackage fq₂) ∧
    (∀ v : String, isHidlTransportPackage ⟨"android.hidl.base", v, ""⟩ = true ∧
      isHidlTransportPackage ⟨"android.hidl.manager", v, ""⟩ = true) ∧
    (cppLibLocationMarkings LibraryLocation.VNDK
        ⟨"android.hardware.graphics.mapper", "2.0", ""⟩ =
      ["vendor_available: true", "vndk.enabled: true", "vndk.support_system_process: true"]) ∧
    (cppLibLocationMarkings LibraryLocation.VNDK
        ⟨"android.hardware.graphics.mapper", "3.0", ""⟩ =
      ["vendor_available: true", "vndk.enabled: true"]) := by
  refine ⟨?_, ?_, by decide, by decide⟩
  · intro fq₁ fq₂ h
    simp [isHidlTransportPackage, h]
  · intro v
    constructor <;>
      simp [isHidlTransportPackage, gIBasePackageFqNameString, gIManagerPackageFqNameString]

/-- Claim C10 (witness): the package-only dependence applied at two versions
of the IBase package, plus a concrete any-version instance. -/
theorem claim_C10_witness :
    isHidlTransportPackage ⟨"android.hidl.base", "7.3", "IBase"⟩ =
      isHidlTransportPackage ⟨"android.hidl.base", "1.0", ""⟩ ∧
    isHidlTransportPackage ⟨"android.hidl.base", "9.9", ""⟩ = true :=
  ⟨claim_C10_main.1 ⟨"android.hidl.base", "7.3", "IBase"⟩ ⟨"android.hidl.base", "1.0", ""⟩ rfl,
   (claim_C10_main.2.1 "9.9").1⟩


/-- Appending "/" makes a path end in '/'. -/
theorem endsWithSlash_append_slash (s : String) : endsWithSlash (s ++ "/") = true := by
  unfold endsWithSlash
  rw [String.data_append]
  simp [List.getLast?_concat]

/-- ensureTrailingSlash always produces a path ending in '/'. -/
theorem endsWithSlash_ensureTrailingSlash (s : String) :
    endsWithSlash (ensureTrailingSlash s) = true := by
  unfold ensureTrailingSlash
  split
  · assumption
  · exact endsWithSlash_append_slash s

/-- Claim C6: the output path handed to the generator is normalized by the
handler's requirement: a NEEDS_DIR or NEEDS_SRC path always ends in '/'
(NEEDS_SRC defaulting to the root path when -o is absent), a NEEDS_FILE path
passes through unchanged, and a NOT_NEEDED handler has the -o value
cleared. -/
theorem claim_C6_main (mode : OutputMode) (outputPath rootPath : String) :
    (∀ p, mode = OutputMode.NEEDS_DIR →
      normalizeOutputPath mode outputPath rootPath = some p → endsWithSlash p = true) ∧
    (∀ p, mode = OutputMode.NEEDS_SRC →
      normalizeOutputPath mode outputPath rootPath = some p → endsWithSlash p = true) ∧
    (mode = OutputMode.NEEDS_SRC → outputPath = "" →
      normalizeOutputPath mode outputPath rootPath = some (ensureTrailingSlash rootPath)) ∧
    (mode = OutputMode.NEEDS_FILE → outputPath ≠ "" →
      normalizeOutputPath mode outputPath rootPath = some outputPath) ∧
    (mode = OutputMode.NOT_NEEDED → normalizeOutputPath mode outputPath rootPath = some "") := by
  refine ⟨?_, ?_, ?_, ?_, ?_⟩
  · rintro p rfl hp
    by_cases ho : outputPath = ""
    · simp [normalizeOutputPath, ho] at hp
    · simp [normalizeOutputPath, ho] at hp
      subst hp
      exact endsWithSlash_ensureTrailingSlash outputPath
  · rintro p rfl hp
    simp [normalizeOutputPath] at hp
    subst hp
    exact endsWithSlash_ensureTrailingSlash _
  · rintro rfl ho
    simp [normalizeOutputPath, ho]
  · rintro rfl ho
    simp [normalizeOutputPath, ho]
  · rintro rfl
    rfl

/-- Claim C6 (witness): the theorem applied for a NEEDS_SRC handler with -o
absent and root path "root", a NEEDS_FILE handler, and a NOT_NEEDED
handler. -/
theorem claim_C6_witness :
    normalizeOutputPath OutputMode.NEEDS_SRC "" "root" =
      some (ensureTrailingSlash "root") ∧
    normalizeOutputPath OutputMode.NEEDS_FILE "out.h" "root" = some "out.h" ∧
    normalizeOutputPath OutputMode.NOT_NEEDED "ignored" "root" = some "" :=
  ⟨(claim_C6_main OutputMode.NEEDS_SRC "" "root").2.2.1 rfl rfl,
   (claim_C6_main OutputMode.NEEDS_FILE "out.h" "root").2.2.2.1 rfl (by decide),
   (claim_C6_main OutputMode.NOT_NEEDED "ignored" "root").2.2.2.2 rfl⟩

/-- A dotted local name is non-empty. -/
theorem name_ne_empty_of_hasDot (fq : FQName) (hd : nameHasDot fq.name = true) :
    fq.name ≠ "" := by
  intro he
  rw [he] at hd
  exact absurd hd (by decide)

/-- For a well-formed fqname with a dotted local name, validateForSource
reduces to: the language is java and the name starts with "types.". -/
theorem validateForSource_dotted (fq : FQName) (language : String)
    (hp : fq.package ≠ "") (hv : fq.version ≠ "") (hd : nameHasDot fq.name = true) :
    validateForSource fq language =
      (decide (language = "java") && nameStartsWithTypesDot fq.name) := by
  have hn : fq.name ≠ "" := name_ne_empty_of_hasDot fq hd
  unfold validateForSource
  rw [if_neg hp, if_neg hv, if_pos hn, if_neg (by simp [hd])]
  by_cases hl : language = "java" <;> by_cases hs : nameStartsWithTypesDot fq.name <;>
    simp [hl, hs]

/-- validateIsPackage rejects any fqname with a non-empty local name. -/
theorem validateIsPackage_nonempty_name (fq : FQName) (language : String)
    (hn : fq.name ≠ "") : validateIsPackage fq language = false := by
  by_cases h1 : fq.package = "" <;> by_cases h2 : fq.version = "" <;>
    simp [validateIsPackage, h1, h2, hn]

/-- Claim C7: for an fqname with package and version present whose local name
contains a dot, the validator of each handler in the formats table accepts it
iff the handler is the java handler and the name begins with "types.". -/
theorem claim_C7_main (h : OutputHandlerM) (hm : h ∈ formats) (fq : FQName)
    (hp : fq.package ≠ "") (hv : fq.version ≠ "") (hd : nameHasDot fq.name = true) :
    (runValidator h.validator fq h.key = true ↔
      (h.key = "java" ∧ nameStartsWithTypesDot fq.name = true)) := by
  have hn : fq.name ≠ "" := name_ne_empty_of_hasDot fq hd
  fin_cases hm <;>
    simp [runValidator, validateForSource_dotted fq _ hp hv hd,
      validateIsPackage_nonempty_name fq _ hn]

/-- Claim C7 (witness): the theorem at the java handler and at the c++
handler, for the dotted name types.Foo. -/
theorem claim_C7_witness :
    (runValidator ValidatorKind.forSource ⟨"a.b", "1.0", "types.Foo"⟩ "java" = true ↔
      (("java" : String) = "java" ∧
        nameStartsWithTypesDot "types.Foo" = true)) ∧
    (runValidator ValidatorKind.forSource ⟨"a.b", "1.0", "types.Foo"⟩ "c++" = true ↔
      (("c++" : String) = "java" ∧
        nameStartsWithTypesDot "types.Foo" = true)) :=
  ⟨claim_C7_main ⟨"java", OutputMode.NEEDS_DIR, ValidatorKind.forSource⟩ (by decide)
      ⟨"a.b", "1.0", "types.Foo"⟩ (by decide) (by decide) (by decide),
   claim_C7_main ⟨"c++", OutputMode.NEEDS_DIR, ValidatorKind.forSource⟩ (by decide)
      ⟨"a.b", "1.0", "types.Foo"⟩ (by decide) (by decide) (by decide)⟩

/-- Once the flag is set, the java-constants out closure emits nothing and
leaves the flag set. -/
theorem javaConstantsOnce_flag_set (pathPrefix : String) (l : List FQName) :
    javaConstantsOnce pathPrefix l true = ([], true) := by
  induction l with
  | nil => rfl
  | cons x xs ih => simp [javaConstantsOnce, ih]

/-- On its very first run over a non-empty interface list, the java-constants
out closure emits exactly one Constants.java entry and sets the flag. -/
theorem javaConstantsOnce_first (pathPrefix : String) (x : FQName) (xs : List FQName) :
    javaConstantsOnce pathPrefix (x :: xs) false =
      ([pathPrefix ++ "Constants.java"], true) := by
  simp [javaConstantsOnce, javaConstantsOnce_flag_set]

/-- The java-constants out list never holds more than one entry. -/
theorem javaConstantsOnce_len (pathPrefix : String) (l : List FQName) (once : Bool) :
    (javaConstantsOnce pathPrefix l once).1.length ≤ 1 := by
  cases once
  · cases l with
    | nil => simp [javaConstantsOnce]
    | cons x xs => simp [javaConstantsOnce_first]
  · simp [javaConstantsOnce_flag_set]

/-- Claim C9: the java-constants genrule's out list holds at most one entry
(Constants.java) however many interfaces the package has; the emitting
closure is guarded by a process-lifetime flag, so the first package emitted
in an invocation gets the entry and sets the flag, and the java-constants
genrule of any later package in the same invocation has an empty out list. -/
theorem claim_C9_main :
    (∀ pathPrefix packageFQName packageInterfaces once n outs,
      BpRule.genrule n "java-constants" outs ∈
        (generateAndroidBpJavaExportsForPackage pathPrefix packageFQName
          packageInterfaces once).1 →
      outs.length ≤ 1) ∧
    (∀ pathPrefix packageFQName packageInterfaces, packageInterfaces ≠ [] →
      (generateAndroidBpJavaExportsForPackage pathPrefix packageFQName
          packageInterfaces false).1 =
        [BpRule.genrule (makeJavaLibraryName packageFQName ++ "-constants" ++ "_gen_java")
           "java-constants" [pathPrefix ++ "Constants.java"],
         BpRule.javaLibrary (makeJavaLibraryName packageFQName ++ "-constants") []] ∧
      (generateAndroidBpJavaExportsForPackage pathPrefix packageFQName
          packageInterfaces false).2 = true) ∧
    (∀ pathPrefix packageFQName packageInterfaces pathPrefix₂ packageFQName₂
        packageInterfaces₂, packageInterfaces ≠ [] →
      (generateAndroidBpJavaExportsForPackage pathPrefix₂ packageFQName₂ packageInterfaces₂
          (generateAndroidBpJavaExportsForPackage pathPrefix packageFQName
            packageInterfaces false).2).1 =
        [BpRule.genrule (makeJavaLibraryName packageFQName₂ ++ "-constants" ++ "_gen_java")
           "java-constants" [],
         BpRule.javaLibrary (makeJavaLibraryName packageFQName₂ ++ "-constants") []]) := by
  refine ⟨?_, ?_, ?_⟩
  · intro pathPrefix packageFQName packageInterfaces once n outs hmem
    unfold generateAndroidBpJavaExportsForPackage at hmem
    simp only [List.mem_cons, List.mem_singleton] at hmem
    rcases hmem with hmem | hmem | hmem
    · cases hmem
      exact javaConstantsOnce_len pathPrefix packageInterfaces once
    · cases hmem
    · cases hmem
  · intro pathPrefix packageFQName packageInterfaces hne
    obtain ⟨x, xs, rfl⟩ := List.exists_cons_of_ne_nil hne
    unfold generateAndroidBpJavaExportsForPackage
    rw [javaConstantsOnce_first]
    exact ⟨rfl, rfl⟩
  · intro pathPrefix packageFQName packageInterfaces pathPrefix₂ packageFQName₂
      packageInterfaces₂ hne
    obtain ⟨x, xs, rfl⟩ := List.exists_cons_of_ne_nil hne
    unfold generateAndroidBpJavaExportsForPackage
    rw [javaConstantsOnce_first]
    simp only []
    rw [javaConstantsOnce_flag_set]

/-- Claim C9 (witness): two packages emitted in sequence in one invocation;
the first genrule carries Constants.java, the second an empty out list. -/
theorem claim_C9_witness :
    ((generateAndroidBpJavaExportsForPackage "p/" ⟨"a.b", "1.0", ""⟩
        [⟨"a.b", "1.0", "IFoo"⟩] false).1 =
      [BpRule.genrule (makeJavaLibraryName ⟨"a.b", "1.0", ""⟩ ++ "-constants" ++ "_gen_java")
         "java-constants" ["p/" ++ "Constants.java"],
       BpRule.javaLibrary (makeJavaLibraryName ⟨"a.b", "1.0", ""⟩ ++ "-constants") []] ∧
      (generateAndroidBpJavaExportsForPackage "p/" ⟨"a.b", "1.0", ""⟩
        [⟨"a.b", "1.0", "IFoo"⟩] false).2 = true) ∧
    ((generateAndroidBpJavaExportsForPackage "q/" ⟨"a.c", "1.0", ""⟩
        [⟨"a.c", "1.0", "IBar"⟩]
        (generateAndroidBpJavaExportsForPackage "p/" ⟨"a.b", "1.0", ""⟩
          [⟨"a.b", "1.0", "IFoo"⟩] false).2).1 =
      [BpRule.genrule (makeJavaLibraryName ⟨"a.c", "1.0", ""⟩ ++ "-constants" ++ "_gen_java")
         "java-constants" [],
       BpRule.javaLibrary (makeJavaLibraryName ⟨"a.c", "1.0", ""⟩ ++ "-constants") []]) :=
  ⟨claim_C9_main.2.1 "p/" ⟨"a.b", "1.0", ""⟩ [⟨"a.b", "1.0", "IFoo"⟩] (by decide),
   claim_C9_main.2.2 "p/" ⟨"a.b", "1.0", ""⟩ [⟨"a.b", "1.0", "IFoo"⟩] "q/"
     ⟨"a.c", "1.0", ""⟩ [⟨"a.c", "1.0", "IBar"⟩] (by decide)⟩

/-- Every non-types-only import (other than the package itself) contributes
its adapter-helper entry to a successfully computed helper dependency
list. -/
theorem adapterHelperDeps_mem (packageFQName : FQName)
    (isTypesOnlyPkg : FQName → Option Bool) :
    ∀ (hier : List FQName) (ds : List String),
      adapterHelperDeps packageFQName isTypesOnlyPkg hier = some ds →
      ∀ p ∈ hier, p ≠ packageFQName → isTypesOnlyPkg p = some false →
        (makeLibraryName p ++ "-adapter-helper") ∈ ds := by
  intro hier
  induction hier with
  | nil => intro ds _ p hp; cases hp
  | cons q qs ih =>
    intro ds hds p hp hpne hpq
    unfold adapterHelperDeps at hds
    rcases List.mem_cons.mp hp with rfl | hp'
    · rw [if_neg hpne, hpq] at hds
      obtain ⟨ds', hds', rfl⟩ := Option.map_eq_some'.mp hds
      exact List.mem_cons_self _ _
    · by_cases hq : q = packageFQName
      · rw [if_pos hq] at hds
        exact ih ds hds p hp' hpne hpq
      · rw [if_neg hq] at hds
        cases hqt : isTypesOnlyPkg q with
        | none => rw [hqt] at hds; cases hds
        | some b =>
          rw [hqt] at hds
          cases b
          · obtain ⟨ds', hds', rfl⟩ := Option.map_eq_some'.mp hds
            exact List.mem_cons_of_mem _ (ih ds' hds' p hp' hpne hpq)
          · exact ih ds hds p hp' hpne hpq

/-- Claim C8: when the adapter rule group of a package is successfully
planned, its adapter-helper cc_library's shared-libs dependency list contains
libhidladapter, and for every imported package in the hierarchy (other than
the package itself) that is not types-only, that import's
"<package@version>-adapter-helper" entry. -/
theorem claim_C8_main (pathPrefix : String) (packageFQName : FQName)
    (packageInterfaces importedPackagesHierarchy : List FQName)
    (isTypesOnlyPkg : FQName → Option Bool) (rules : List BpRule)
    (h : generateAndroidBpAdapterLibsForPackage pathPrefix packageFQName packageInterfaces
        importedPackagesHierarchy isTypesOnlyPkg = some rules) :
    ∃ markings sharedLibs exportLibs,
      BpRule.ccLibrary (makeLibraryName packageFQName ++ "-adapter" ++ "-helper") markings
        sharedLibs exportLibs ∈ rules ∧
      "libhidladapter" ∈ sharedLibs ∧
      ∀ p ∈ importedPackagesHierarchy, p ≠ packageFQName → isTypesOnlyPkg p = some false →
        (makeLibraryName p ++ "-adapter-helper") ∈ sharedLibs := by
  unfold generateAndroidBpAdapterLibsForPackage at h
  obtain ⟨helperDeps, hhd, rfl⟩ := Option.map_eq_some'.mp h
  refine ⟨cppLibLocationMarkings LibraryLocation.VENDOR_AVAILABLE packageFQName,
    cppLibBaseSharedLibs ++ ("libhidladapter" ::
      generateAndroidBpDependencyList (insertFQ packageFQName importedPackagesHierarchy) ++
      helperDeps),
    cppLibBaseExportHeaderLibs ++ ("libhidladapter" ::
      generateAndroidBpDependencyList (insertFQ packageFQName importedPackagesHierarchy) ++
      helperDeps), ?_, ?_, ?_⟩
  · simp [generateAndroidBpCppLibSection]
  · simp
  · intro p hp hpne hpq
    have hmem := adapterHelperDeps_mem packageFQName isTypesOnlyPkg
      importedPackagesHierarchy helperDeps hhd p hp hpne hpq
    exact List.mem_append_right _ (List.mem_cons_of_mem _ (List.mem_append_right _ hmem))

/-- Claim C8 (witness): the theorem at a package with one non-types-only
import. -/
theorem claim_C8_witness :
    ∃ markings sharedLibs exportLibs,
      BpRule.ccLibrary (makeLibraryName ⟨"a.b", "1.0", ""⟩ ++ "-adapter" ++ "-helper")
        markings sharedLibs exportLibs ∈
        ((generateAndroidBpAdapterLibsForPackage "" ⟨"a.b", "1.0", ""⟩
          [⟨"a.b", "1.0", "IFoo"⟩] [⟨"a.c", "1.0", ""⟩] (fun _ => some false)).getD []) ∧
      "libhidladapter" ∈ sharedLibs ∧
      ∀ p ∈ [(⟨"a.c", "1.0", ""⟩ : FQName)], p ≠ ⟨"a.b", "1.0", ""⟩ →
        (fun (_ : FQName) => some false) p = some false →
        (makeLibraryName p ++ "-adapter-helper") ∈ sharedLibs :=
  claim_C8_main "" ⟨"a.b", "1.0", ""⟩ [⟨"a.b", "1.0", "IFoo"⟩] [⟨"a.c", "1.0", ""⟩]
    (fun _ => some false) _ rfl

/-- A string does not equal itself with a non-empty suffix appended. -/
theorem string_append_ne_self (s t : String) (ht : t ≠ "") : s ++ t ≠ s := by
  intro he
  have hl := congrArg String.length he
  rw [String.length_append] at hl
  have h0 : t.length = 0 := by omega
  exact ht (String.ext (List.length_eq_zero.mp h0))

/-- The adapter-helper library name differs from the package library name. -/
theorem adapterHelperName_ne (s : String) : s ++ "-adapter" ++ "-helper" ≠ s := by
  intro he
  have hl := congrArg String.length he
  rw [String.length_append, String.length_append] at hl
  have h1 : ("-adapter" : String).length = 8 := rfl
  have h2 : ("-helper" : String).length = 7 := rfl
  omega

/-- Rule shapes of the definition-libs group: two C++ genrules, then either
the transport comment or the package cc_library. -/
theorem mem_defnLibs_shapes (generateForTest : Bool) (pathPrefix : String)
    (packageFQName : FQName) (packageInterfaces importedPackagesHierarchy : List FQName)
    (r : BpRule)
    (hr : r ∈ generateAndroidBpDefinitionLibsForPackage generateForTest pathPrefix
      packageFQName packageInterfaces importedPackagesHierarchy) :
    (∃ n outs, r = BpRule.genrule n "c++-sources" outs) ∨
    (∃ n outs, r = BpRule.genrule n "c++-headers" outs) ∨
    (isHidlTransportPackage packageFQName = true ∧
      r = BpRule.comment (packageFQName.string ++ " is exported from libhidltransport")) ∨
    (isHidlTransportPackage packageFQName = false ∧
      ∃ ms ls es, r = BpRule.ccLibrary (makeLibraryName packageFQName) ms ls es) := by
  unfold generateAndroidBpDefinitionLibsForPackage at hr
  cases ht : isHidlTransportPackage packageFQName <;>
    simp only [ht, Bool.false_eq_true, if_false, if_true, List.mem_append, List.mem_cons,
      List.mem_singleton, List.not_mem_nil, or_false, generateAndroidBpCppLibSection] at hr
  · rcases hr with (rfl | rfl) | rfl
    · exact Or.inl ⟨_, _, rfl⟩
    · exact Or.inr (Or.inl ⟨_, _, rfl⟩)
    · exact Or.inr (Or.inr (Or.inr ⟨rfl, _, _, _, rfl⟩))
  · rcases hr with (rfl | rfl) | rfl
    · exact Or.inl ⟨_, _, rfl⟩
    · exact Or.inr (Or.inl ⟨_, _, rfl⟩)
    · exact Or.inr (Or.inr (Or.inl ⟨rfl, rfl⟩))

/-- The transport comment is in the definition-libs group of a transport
package. -/
theorem comment_mem_defnLibs (generateForTest : Bool) (pathPrefix : String)
    (packageFQName : FQName) (packageInterfaces importedPackagesHierarchy : List FQName)
    (ht : isHidlTransportPackage packageFQName = true) :
    BpRule.comment (packageFQName.string ++ " is exported from libhidltransport") ∈
      generateAndroidBpDefinitionLibsForPackage generateForTest pathPrefix packageFQName
        packageInterfaces importedPackagesHierarchy := by
  unfold generateAndroidBpDefinitionLibsForPackage
  simp [ht]

/-- Rule shapes of the java-libs group. -/
theorem mem_javaLibs_shapes (pathPrefix : String) (packageFQName : FQName)
    (packageInterfaces importedPackagesHierarchy : List FQName)
    (typesAST : Option (List NamedType)) (jl : List BpRule)
    (hjl : generateAndroidBpJavaLibsForPackage pathPrefix packageFQName packageInterfaces
      importedPackagesHierarchy typesAST = some jl) (r : BpRule) (hr : r ∈ jl) :
    (∃ n outs, r = BpRule.genrule n "java" outs) ∨
    (∃ ls, r = BpRule.javaLibrary (makeJavaLibraryName packageFQName) ls) := by
  unfold generateAndroidBpJavaLibsForPackage at hjl
  obtain ⟨outs, houts, rfl⟩ := Option.map_eq_some'.mp hjl
  simp only [List.mem_cons, List.mem_singleton, List.not_mem_nil, or_false] at hr
  rcases hr with rfl | rfl
  · exact Or.inl ⟨_, _, rfl⟩
  · exact Or.inr ⟨_, rfl⟩

/-- Rule shapes of the java-constants exports group. -/
theorem mem_javaExports_shapes (pathPrefix : String) (packageFQName : FQName)
    (packageInterfaces : List FQName) (once : Bool) (r : BpRule)
    (hr : r ∈ (generateAndroidBpJavaExportsForPackage pathPrefix packageFQName
      packageInterfaces once).1) :
    (∃ n outs, r = BpRule.genrule n "java-constants" outs) ∨
    (∃ ls, r = BpRule.javaLibrary (makeJavaLibraryName packageFQName ++ "-constants") ls) := by
  unfold generateAndroidBpJavaExportsForPackage at hr
  simp only [List.mem_cons, List.mem_singleton, List.not_mem_nil, or_false] at hr
  rcases hr with rfl | rfl
  · exact Or.inl ⟨_, _, rfl⟩
  · exact Or.inr ⟨_, rfl⟩

/-- Rule shapes of the whole java section of the planner. -/
theorem mem_javaPart_shapes (pathPrefixSanitized : String) (packageFQName : FQName)
    (packageInterfaces : List FQName) (typesAST : Option (List NamedType))
    (importedPackagesHierarchy : List FQName) (exportedTypes : List String)
    (isJavaCompatible : Bool) (once : Bool) (needsJava : Bool) (jp : List BpRule × Bool)
    (hjp : (if needsJava then
        androidBpJavaSection pathPrefixSanitized packageFQName packageInterfaces typesAST
          importedPackagesHierarchy exportedTypes isJavaCompatible once
      else
        some ([BpRule.comment "This package has nothing to generate Java code."], once))
      = some jp)
    (r : BpRule) (hr : r ∈ jp.1) :
    (∃ n outs, r = BpRule.genrule n "java" outs) ∨
    (∃ ls, r = BpRule.javaLibrary (makeJavaLibraryName packageFQName) ls) ∨
    (∃ text, r = BpRule.comment text) ∨
    (exportedTypes ≠ [] ∧
      ((∃ n outs, r = BpRule.genrule n "java-constants" outs) ∨
       (∃ ls, r = BpRule.javaLibrary (makeJavaLibraryName packageFQName ++ "-constants")
          ls))) := by
  cases needsJava with
  | false =>
    simp only [if_false, Bool.false_eq_true, Option.some.injEq] at hjp
    subst hjp
    simp only [List.mem_singleton] at hr
    exact Or.inr (Or.inr (Or.inl ⟨_, hr⟩))
  | true =>
    simp only [if_true] at hjp
    unfold androidBpJavaSection at hjp
    split at hjp
    · cases hjp
    · rename_i jl hjl
      have hjl_shape : ∀ r' ∈ jl,
          (∃ n outs, r' = BpRule.genrule n "java" outs) ∨
          (∃ ls, r' = BpRule.javaLibrary (makeJavaLibraryName packageFQName) ls) ∨
          (∃ text, r' = BpRule.comment text) := by
        intro r' hr'
        cases hc : isJavaCompatible with
        | true =>
          simp only [hc, if_true] at hjl
          rcases mem_javaLibs_shapes pathPrefixSanitized packageFQName packageInterfaces
            importedPackagesHierarchy typesAST jl hjl r' hr' with h1 | h1
          · exact Or.inl h1
          · exact Or.inr (Or.inl h1)
        | false =>
          simp only [hc, Bool.false_eq_true, if_false, Option.some.injEq] at hjl
          subst hjl
          simp only [List.mem_singleton] at hr'
          exact Or.inr (Or.inr ⟨_, hr'⟩)
      split at hjp <;>
        simp only [Option.some.injEq] at hjp <;> subst hjp <;>
        rcases List.mem_append.mp hr with hr' | hr'
      · rcases hjl_shape r hr' with h1 | h1 | h1
        · exact Or.inl h1
        · exact Or.inr (Or.inl h1)
        · exact Or.inr (Or.inr (Or.inl h1))
      · rename_i he
        rcases mem_javaExports_shapes pathPrefixSanitized packageFQName packageInterfaces
          once r hr' with h1 | h1
        · exact Or.inr (Or.inr (Or.inr ⟨he, Or.inl h1⟩))
        · exact Or.inr (Or.inr (Or.inr ⟨he, Or.inr h1⟩))
      · rcases hjl_shape r hr' with h1 | h1 | h1
        · exact Or.inl h1
        · exact Or.inr (Or.inl h1)
        · exact Or.inr (Or.inr (Or.inl h1))
      · simp only [List.mem_singleton] at hr'
        exact Or.inr (Or.inr (Or.inl ⟨_, hr'⟩))

/-- Rule shapes of the adapter-libs group. -/
theorem mem_adapterLibs_shapes (pathPrefix : String) (packageFQName : FQName)
    (packageInterfaces importedPackagesHierarchy : List FQName)
    (isTypesOnlyPkg : FQName → Option Bool) (ap : List BpRule)
    (hap : generateAndroidBpAdapterLibsForPackage pathPrefix packageFQName packageInterfaces
      importedPackagesHierarchy isTypesOnlyPkg = some ap) (r : BpRule) (hr : r ∈ ap) :
    (∃ n outs, r = BpRule.genrule n "c++-adapter-sources" outs) ∨
    (∃ n outs, r = BpRule.genrule n "c++-adapter-headers" outs) ∨
    (∃ n outs, r = BpRule.genrule n "c++-adapter-main" outs) ∨
    (∃ ms ls es, r = BpRule.ccLibrary
      (makeLibraryName packageFQName ++ "-adapter" ++ "-helper") ms ls es) ∨
    (∃ ls, r = BpRule.ccTest (makeLibraryName packageFQName ++ "-adapter") ls) := by
  unfold generateAndroidBpAdapterLibsForPackage at hap
  obtain ⟨helperDeps, hhd, rfl⟩ := Option.map_eq_some'.mp hap
  simp only [List.mem_cons, List.mem_singleton, List.not_mem_nil, or_false,
    generateAndroidBpCppLibSection] at hr
  rcases hr with rfl | rfl | rfl | rfl | rfl
  · exact Or.inl ⟨_, _, rfl⟩
  · exact Or.inr (Or.inl ⟨_, _, rfl⟩)
  · exact Or.inr (Or.inr (Or.inr (Or.inl ⟨_, _, _, rfl⟩)))
  · exact Or.inr (Or.inr (Or.inl ⟨_, _, rfl⟩))
  · exact Or.inr (Or.inr (Or.inr (Or.inr ⟨_, rfl⟩)))

/-- Rule shapes of the adapter section of the planner: either the types-only
comment, or the adapter library rules. -/
theorem mem_adapterSection_shapes (pathPrefix : String) (packageFQName : FQName)
    (packageInterfaces importedPackagesHierarchy : List FQName) (isTypesOnly : Bool)
    (isTypesOnlyPkg : FQName → Option Bool) (ap : List BpRule)
    (hap : androidBpAdapterSection pathPrefix packageFQName packageInterfaces
      importedPackagesHierarchy isTypesOnly isTypesOnlyPkg = some ap)
    (r : BpRule) (hr : r ∈ ap) :
    (isTypesOnly = true ∧
      r = BpRule.comment "This package has no interfaces. Not creating versioning adapter.") ∨
    (isTypesOnly = false ∧
      ((∃ n outs, r = BpRule.genrule n "c++-adapter-sources" outs) ∨
       (∃ n outs, r = BpRule.genrule n "c++-adapter-headers" outs) ∨
       (∃ n outs, r = BpRule.genrule n "c++-adapter-main" outs) ∨
       (∃ ms ls es, r = BpRule.ccLibrary
         (makeLibraryName packageFQName ++ "-adapter" ++ "-helper") ms ls es) ∨
       (∃ ls, r = BpRule.ccTest (makeLibraryName packageFQName ++ "-adapter") ls))) := by
  unfold androidBpAdapterSection at hap
  cases hto : isTypesOnly with
  | true =>
    rw [hto] at hap
    simp only [Bool.not_true, Bool.false_eq_true, if_false, Option.some.injEq] at hap
    subst hap
    simp only [List.mem_singleton] at hr
    exact Or.inl ⟨rfl, hr⟩
  | false =>
    rw [hto] at hap
    simp only [Bool.not_false, if_true] at hap
    exact Or.inr ⟨rfl, mem_adapterLibs_shapes pathPrefix packageFQName packageInterfaces
      importedPackagesHierarchy isTypesOnlyPkg ap hap r hr⟩

/-- Claim C4: for a successfully planned androidbp run: a transport package
gets no package cc_library, only the transport comment; a types-only package
gets no adapter rules (no adapter genrules, no adapter-helper cc_library, no
cc_test); a package exporting no types gets no java-constants rules (neither
the genrule nor the constants java_library). -/
theorem claim_C4_main (generateForTest : Bool) (pathPrefix pathPrefixSanitized : String)
    (packageFQName : FQName) (packageInterfaces : List FQName)
    (typesAST : Option (List NamedType)) (importedPackagesHierarchy : List FQName)
    (exportedTypes : List String) (isTypesOnly isJavaCompatible : Bool)
    (isTypesOnlyPkg : FQName → Option Bool) (once : Bool) (rules : List BpRule)
    (once' : Bool)
    (h : generateAndroidBpForPackage generateForTest pathPrefix pathPrefixSanitized
      packageFQName packageInterfaces typesAST importedPackagesHierarchy exportedTypes
      isTypesOnly isJavaCompatible isTypesOnlyPkg once = some (rules, once')) :
    (isHidlTransportPackage packageFQName = true →
      (∀ ms ls es, BpRule.ccLibrary (makeLibraryName packageFQName) ms ls es ∉ rules) ∧
      BpRule.comment (packageFQName.string ++ " is exported from libhidltransport")
        ∈ rules) ∧
    (isTypesOnly = true →
      (∀ n ls, BpRule.ccTest n ls ∉ rules) ∧
      (∀ n outs, BpRule.genrule n "c++-adapter-sources" outs ∉ rules) ∧
      (∀ n outs, BpRule.genrule n "c++-adapter-headers" outs ∉ rules) ∧
      (∀ n outs, BpRule.genrule n "c++-adapter-main" outs ∉ rules) ∧
      (∀ ms ls es, BpRule.ccLibrary (makeLibraryName packageFQName ++ "-adapter" ++ "-helper")
        ms ls es ∉ rules)) ∧
    (exportedTypes = [] →
      (∀ n outs, BpRule.genrule n "java-constants" outs ∉ rules) ∧
      (∀ ls, BpRule.javaLibrary (makeJavaLibraryName packageFQName ++ "-constants") ls
        ∉ rules)) := by
  unfold generateAndroidBpForPackage at h
  split at h
  · simp at h
  rename_i needsJava hnj
  split at h
  · simp at h
  rename_i jp hjp
  split at h
  · simp at h
  rename_i ap hap
  simp only [Option.some.injEq, Prod.mk.injEq] at h
  obtain ⟨hrules, -⟩ := h
  subst hrules
  refine ⟨?_, ?_, ?_⟩
  · -- transport package
    intro ht
    refine ⟨?_, ?_⟩
    · intro ms ls es hmem
      rcases List.mem_cons.mp hmem with heq | hmem'
      · simp at heq
      rcases List.mem_append.mp hmem' with hmem2 | hmem3
      · rcases List.mem_append.mp hmem2 with hd | hj
        · rcases mem_defnLibs_shapes _ _ _ _ _ _ hd with
            ⟨n, outs, heq⟩ | ⟨n, outs, heq⟩ | ⟨-, heq⟩ | ⟨hf, n2, m2, l2, heq⟩
          · simp at heq
          · simp at heq
          · simp at heq
          · rw [ht] at hf
            exact Bool.noConfusion hf
        · rcases mem_javaPart_shapes _ _ _ _ _ _ _ _ _ _ hjp _ hj with
            ⟨n, outs, heq⟩ | ⟨ls2, heq⟩ | ⟨text, heq⟩ | ⟨-, ⟨n, outs, heq⟩ | ⟨ls2, heq⟩⟩
          · simp at heq
          · simp at heq
          · simp at heq
          · simp at heq
          · simp at heq
      · rcases mem_adapterSection_shapes _ _ _ _ _ _ _ hap _ hmem3 with
          ⟨-, heq⟩ | ⟨-, ⟨n, outs, heq⟩ | ⟨n, outs, heq⟩ | ⟨n, outs, heq⟩ |
            ⟨m2, l2, e2, heq⟩ | ⟨ls2, heq⟩⟩
        · simp at heq
        · simp at heq
        · simp at heq
        · simp at heq
        · simp only [BpRule.ccLibrary.injEq] at heq
          exact adapterHelperName_ne _ heq.1.symm
        · simp at heq
    · refine List.mem_cons_of_mem _ (List.mem_append.mpr (Or.inl (List.mem_append.mpr
        (Or.inl (comment_mem_defnLibs generateForTest pathPrefix packageFQName
          packageInterfaces importedPackagesHierarchy ht)))))
  · -- types-only package
    intro hto
    have hap_eq : ap =
        [BpRule.comment "This package has no interfaces. Not creating versioning adapter."] := by
      unfold androidBpAdapterSection at hap
      rw [hto] at hap
      simpa using hap.symm
    subst hap_eq
    have hnotadapter : ∀ (r : BpRule),
        r ∈ BpRule.filegroup (makeHalFilegroupName packageFQName)
            (packageInterfaces.map (fun fq => fq.name ++ ".hal")) ::
          generateAndroidBpDefinitionLibsForPackage generateForTest pathPrefix packageFQName
            packageInterfaces importedPackagesHierarchy ++ jp.1 ++
          [BpRule.comment "This package has no interfaces. Not creating versioning adapter."] →
        (∃ n srcs, r = BpRule.filegroup n srcs) ∨
        (∃ n outs, r = BpRule.genrule n "c++-sources" outs) ∨
        (∃ n outs, r = BpRule.genrule n "c++-headers" outs) ∨
        (∃ text, r = BpRule.comment text) ∨
        (∃ ms ls es, r = BpRule.ccLibrary (makeLibraryName packageFQName) ms ls es) ∨
        (∃ n outs, r = BpRule.genrule n "java" outs) ∨
        (∃ n ls, r = BpRule.javaLibrary n ls) ∨
        (∃ n outs, r = BpRule.genrule n "java-constants" outs) := by
      intro r hmem
      rcases List.mem_cons.mp hmem with heq | hmem'
      · exact Or.inl ⟨_, _, heq⟩
      rcases List.mem_append.mp hmem' with hmem2 | hmem3
      · rcases List.mem_append.mp hmem2 with hd | hj
        · rcases mem_defnLibs_shapes _ _ _ _ _ _ hd with
            ⟨n, outs, heq⟩ | ⟨n, outs, heq⟩ | ⟨-, heq⟩ | ⟨-, n2, m2, l2, heq⟩
          · exact Or.inr (Or.inl ⟨_, _, heq⟩)
          · exact Or.inr (Or.inr (Or.inl ⟨_, _, heq⟩))
          · exact Or.inr (Or.inr (Or.inr (Or.inl ⟨_, heq⟩)))
          · exact Or.inr (Or.inr (Or.inr (Or.inr (Or.inl ⟨_, _, _, heq⟩))))
        · rcases mem_javaPart_shapes _ _ _ _ _ _ _ _ _ _ hjp _ hj with
            ⟨n, outs, heq⟩ | ⟨ls2, heq⟩ | ⟨text, heq⟩ | ⟨-, ⟨n, outs, heq⟩ | ⟨ls2, heq⟩⟩
          · exact Or.inr (Or.inr (Or.inr (Or.inr (Or.inr (Or.inl ⟨_, _, heq⟩)))))
          · exact Or.inr (Or.inr (Or.inr (Or.inr (Or.inr (Or.inr (Or.inl ⟨_, _, heq⟩))))))
          · exact Or.inr (Or.inr (Or.inr (Or.inl ⟨_, heq⟩)))
          · exact Or.inr (Or.inr (Or.inr (Or.inr (Or.inr (Or.inr (Or.inr ⟨_, _, heq⟩))))))
          · exact Or.inr (Or.inr (Or.inr (Or.inr (Or.inr (Or.inr (Or.inl ⟨_, _, heq⟩))))))
      · simp only [List.mem_singleton] at hmem3
        exact Or.inr (Or.inr (Or.inr (Or.inl ⟨_, hmem3⟩)))
    refine ⟨?_, ?_, ?_, ?_, ?_⟩
    · intro n ls hmem
      rcases hnotadapter _ hmem with
        ⟨a, b, heq⟩ | ⟨a, b, heq⟩ | ⟨a, b, heq⟩ | ⟨a, heq⟩ | ⟨a, b, c, heq⟩ |
        ⟨a, b, heq⟩ | ⟨a, b, heq⟩ | ⟨a, b, heq⟩ <;> simp at heq
    · intro n outs hmem
      rcases hnotadapter _ hmem with
        ⟨a, b, heq⟩ | ⟨a, b, heq⟩ | ⟨a, b, heq⟩ | ⟨a, heq⟩ | ⟨a, b, c, heq⟩ |
        ⟨a, b, heq⟩ | ⟨a, b, heq⟩ | ⟨a, b, heq⟩ <;> simp at heq
    · intro n outs hmem
      rcases hnotadapter _ hmem with
        ⟨a, b, heq⟩ | ⟨a, b, heq⟩ | ⟨a, b, heq⟩ | ⟨a, heq⟩ | ⟨a, b, c, heq⟩ |
        ⟨a, b, heq⟩ | ⟨a, b, heq⟩ | ⟨a, b, heq⟩ <;> simp at heq
    · intro n outs hmem
      rcases hnotadapter _ hmem with
        ⟨a, b, heq⟩ | ⟨a, b, heq⟩ | ⟨a, b, heq⟩ | ⟨a, heq⟩ | ⟨a, b, c, heq⟩ |
        ⟨a, b, heq⟩ | ⟨a, b, heq⟩ | ⟨a, b, heq⟩ <;> simp at heq
    · intro ms ls es hmem
      rcases hnotadapter _ hmem with
        ⟨a, b, heq⟩ | ⟨a, b, heq⟩ | ⟨a, b, heq⟩ | ⟨a, heq⟩ | ⟨a, b, c, heq⟩ |
        ⟨a, b, heq⟩ | ⟨a, b, heq⟩ | ⟨a, b, heq⟩
      · simp at heq
      · simp at heq
      · simp at heq
      · simp at heq
      · simp only [BpRule.ccLibrary.injEq] at heq
        exact adapterHelperName_ne _ heq.1
      · simp at heq
      · simp at heq
      · simp at heq
  · -- no exported types
    intro he
    refine ⟨?_, ?_⟩
    · intro n outs hmem
      rcases List.mem_cons.mp hmem with heq | hmem'
      · simp at heq
      rcases List.mem_append.mp hmem' with hmem2 | hmem3
      · rcases List.mem_append.mp hmem2 with hd | hj
        · rcases mem_defnLibs_shapes _ _ _ _ _ _ hd with
            ⟨n2, outs2, heq⟩ | ⟨n2, outs2, heq⟩ | ⟨-, heq⟩ | ⟨-, n2, m2, l2, heq⟩
          · simp at heq
          · simp at heq
          · simp at heq
          · simp at heq
        · rcases mem_javaPart_shapes _ _ _ _ _ _ _ _ _ _ hjp _ hj with
            ⟨n2, outs2, heq⟩ | ⟨ls2, heq⟩ | ⟨text, heq⟩ | ⟨hne, -⟩
          · simp at heq
          · simp at heq
          · simp at heq
          · exact hne he
      · rcases mem_adapterSection_shapes _ _ _ _ _ _ _ hap _ hmem3 with
          ⟨-, heq⟩ | ⟨-, ⟨n2, outs2, heq⟩ | ⟨n2, outs2, heq⟩ | ⟨n2, outs2, heq⟩ |
            ⟨m2, l2, e2, heq⟩ | ⟨ls2, heq⟩⟩
        · simp at heq
        · simp at heq
        · simp at heq
        · simp at heq
        · simp at heq
        · simp at heq
    · intro ls hmem
      rcases List.mem_cons.mp hmem with heq | hmem'
      · simp at heq
      rcases List.mem_append.mp hmem' with hmem2 | hmem3
      · rcases List.mem_append.mp hmem2 with hd | hj
        · rcases mem_defnLibs_shapes _ _ _ _ _ _ hd with
            ⟨n2, outs2, heq⟩ | ⟨n2, outs2, heq⟩ | ⟨-, heq⟩ | ⟨-, n2, m2, l2, heq⟩
          · simp at heq
          · simp at heq
          · simp at heq
          · simp at heq
        · rcases mem_javaPart_shapes _ _ _ _ _ _ _ _ _ _ hjp _ hj with
            ⟨n2, outs2, heq⟩ | ⟨ls2, heq⟩ | ⟨text, heq⟩ | ⟨hne, -⟩
          · simp at heq
          · simp only [BpRule.javaLibrary.injEq] at heq
            exact string_append_ne_self _ _ (by decide) heq.1
          · simp at heq
          · exact hne he
      · rcases mem_adapterSection_shapes _ _ _ _ _ _ _ hap _ hmem3 with
          ⟨-, heq⟩ | ⟨-, ⟨n2, outs2, heq⟩ | ⟨n2, outs2, heq⟩ | ⟨n2, outs2, heq⟩ |
            ⟨m2, l2, e2, heq⟩ | ⟨ls2, heq⟩⟩
        · simp at heq
        · simp at heq
        · simp at heq
        · simp at heq
        · simp at heq
        · simp at heq

/-- Claim C4 (witness): the theorem at the concrete transport-package run
with no exported types. -/
theorem claim_C4_witness :
    (isHidlTransportPackage ⟨"android.hidl.base", "1.0", ""⟩ = true →
      (∀ ms ls es, BpRule.ccLibrary (makeLibraryName ⟨"android.hidl.base", "1.0", ""⟩)
        ms ls es ∉ c4WitnessRules) ∧
      BpRule.comment ((⟨"android.hidl.base", "1.0", ""⟩ : FQName).string ++
        " is exported from libhidltransport") ∈ c4WitnessRules) ∧
    (false = true →
      (∀ n ls, BpRule.ccTest n ls ∉ c4WitnessRules) ∧
      (∀ n outs, BpRule.genrule n "c++-adapter-sources" outs ∉ c4WitnessRules) ∧
      (∀ n outs, BpRule.genrule n "c++-adapter-headers" outs ∉ c4WitnessRules) ∧
      (∀ n outs, BpRule.genrule n "c++-adapter-main" outs ∉ c4WitnessRules) ∧
      (∀ ms ls es, BpRule.ccLibrary
        (makeLibraryName ⟨"android.hidl.base", "1.0", ""⟩ ++ "-adapter" ++ "-helper")
        ms ls es ∉ c4WitnessRules)) ∧
    (([] : List String) = [] →
      (∀ n outs, BpRule.genrule n "java-constants" outs ∉ c4WitnessRules) ∧
      (∀ ls, BpRule.javaLibrary
        (makeJavaLibraryName ⟨"android.hidl.base", "1.0", ""⟩ ++ "-constants") ls
        ∉ c4WitnessRules)) :=
  claim_C4_main false "" "" ⟨"android.hidl.base", "1.0", ""⟩
    [⟨"android.hidl.base", "1.0", "IBase"⟩] none [] [] false true (fun _ => some false)
    false c4WitnessRules (c4WitnessRun.getD ([], false)).2 rfl

/-- With NO_HASH enforcement, Coordinator::parse succeeds on any resolvable,
parseable interface, whatever the manifest records. -/
theorem coordinatorParse_noHash_eq (W : HashWorld) (manifest : FQName → Option String)
    (fq : FQName) (f : String) (hf : W.fileOf fq = some f) (hp : W.parseOk fq = true) :
    coordinatorParse W manifest fq Enforce.NO_HASH = some f := by
  unfold coordinatorParse
  rw [hf]
  cases manifest fq with
  | none => simp [hp]
  | some expected => simp [hp]

/-- The hash print loop, on interfaces that all resolve and parse, yields one
"<hex> <fqname>" line per interface in order, for any manifest. -/
theorem hashLines_eq (W : HashWorld) (manifest : FQName → Option String) :
    ∀ (l : List FQName),
      (∀ x ∈ l, ∃ f, W.fileOf x = some f ∧ W.parseOk x = true) →
      hashLines W manifest l =
        some (l.map (fun x => W.fileHash ((W.fileOf x).getD "") ++ " " ++ x.string)) := by
  intro l
  induction l with
  | nil => intro _; rfl
  | cons x xs ih =>
    intro hl
    obtain ⟨f, hf, hp⟩ := hl x (List.mem_cons_self x xs)
    unfold hashLines
    rw [coordinatorParse_noHash_eq W manifest x f hf hp,
      ih (fun y hy => hl y (List.mem_cons_of_mem _ hy))]
    simp [hf]

/-- Claim C5: the hash handler parses every target interface (the package's
interfaces in enumeration order, or the single fully-qualified interface)
with hash enforcement disabled, so the manifest contents never make it fail:
whenever the targets resolve and parse, it succeeds and prints exactly one
"<hex> <fqname>" line per interface in that order, and its output does not
depend on the manifest at all. -/
theorem claim_C5_main (W : HashWorld) (manifest : FQName → Option String)
    (fq : FQName) (targets : List FQName)
    (ht : (if fq.isFullyQualified then some [fq] else W.interfacesOf fq) = some targets)
    (hp : ∀ x ∈ targets, ∃ f, W.fileOf x = some f ∧ W.parseOk x = true) :
    generateHashOutput W manifest fq =
      some (targets.map (fun x => W.fileHash ((W.fileOf x).getD "") ++ " " ++ x.string)) ∧
    (∀ manifest₂,
      generateHashOutput W manifest₂ fq = generateHashOutput W manifest fq) := by
  constructor
  · unfold generateHashOutput
    rw [ht]
    exact hashLines_eq W manifest targets hp
  · intro manifest₂
    unfold generateHashOutput
    rw [ht]
    rw [show (match some targets with
        | none => none
        | some t => hashLines W manifest₂ t) = hashLines W manifest₂ targets from rfl,
      show (match some targets with
        | none => none
        | some t => hashLines W manifest t) = hashLines W manifest targets from rfl]
    rw [hashLines_eq W manifest targets hp, hashLines_eq W manifest₂ targets hp]

/-- Claim C5 (witness): the theorem at the concrete two-interface package
with a manifest whose recorded digest matches neither on-disk hash. -/
theorem claim_C5_witness :
    generateHashOutput c5WitnessWorld (fun _ => some "cccc") ⟨"a.h.foo", "1.0", ""⟩ =
      some (([⟨"a.h.foo", "1.0", "types"⟩, ⟨"a.h.foo", "1.0", "IFoo"⟩] :
          List FQName).map (fun x =>
        c5WitnessWorld.fileHash ((c5WitnessWorld.fileOf x).getD "") ++ " " ++ x.string)) ∧
    (∀ manifest₂,
      generateHashOutput c5WitnessWorld manifest₂ ⟨"a.h.foo", "1.0", ""⟩ =
        generateHashOutput c5WitnessWorld (fun _ => some "cccc") ⟨"a.h.foo", "1.0", ""⟩) :=
  claim_C5_main c5WitnessWorld (fun _ => some "cccc") ⟨"a.h.foo", "1.0", ""⟩
    [⟨"a.h.foo", "1.0", "types"⟩, ⟨"a.h.foo", "1.0", "IFoo"⟩] (by rfl)
    (by
      intro x hx
      fin_cases hx
      · exact ⟨"types.hal", rfl, rfl⟩
      · exact ⟨"IFoo.hal", rfl, rfl⟩)

/-- Unfolding equation of the worklist loop at an empty stack. -/
theorem isPackageJavaCompatibleLoop_nil (W : JavaWorld) (fuel : Nat) (seen : List FQName) :
    isPackageJavaCompatibleLoop W fuel [] seen = some (HStatus.compatible true) := by
  cases fuel <;> rfl

/-- Unfolding equation of the worklist loop at a non-empty stack with fuel. -/
theorem isPackageJavaCompatibleLoop_cons (W : JavaWorld) (fuel : Nat) (fq : FQName)
    (rest seen : List FQName) :
    isPackageJavaCompatibleLoop W (fuel + 1) (fq :: rest) seen =
      (match W.parse fq with
      | none => some HStatus.error
      | some (isJavaCompat, importedPackages) =>
        if !isJavaCompat then some (HStatus.compatible false)
        else
          match expandImports W importedPackages rest seen with
          | none => some HStatus.error
          | some r => isPackageJavaCompatibleLoop W fuel r.1 r.2) := rfl

/-- An interface whose AST parses with the compatible flag set is
Java-compatible. -/
theorem javaCompat_of_parse_true (W : JavaWorld) (x : FQName) (imps : List FQName)
    (hp : W.parse x = some (true, imps)) : JavaCompat W x := by
  intro c imps' hpc
  rw [hp] at hpc
  simp only [Option.some.injEq, Prod.mk.injEq] at hpc
  exact hpc.1.symm

/-- Invariant properties of one unseen-interface push pass. -/
theorem pushUnseen_spec (l : List FQName) :
    ∀ (todo seen : List FQName), todo.Nodup → (∀ x ∈ todo, x ∈ seen) →
      (pushUnseen l todo seen).1.Nodup ∧
      (∀ x ∈ (pushUnseen l todo seen).1, x ∈ (pushUnseen l todo seen).2) ∧
      (∀ x ∈ seen, x ∈ (pushUnseen l todo seen).2) ∧
      (∀ x ∈ todo, x ∈ (pushUnseen l todo seen).1) ∧
      (∀ x ∈ (pushUnseen l todo seen).1, x ∈ todo ∨ x ∈ l) ∧
      (∀ x ∈ (pushUnseen l todo seen).2, x ∈ seen ∨ x ∈ l) ∧
      (∀ x ∈ l, x ∈ (pushUnseen l todo seen).2) ∧
      (∀ x ∈ (pushUnseen l todo seen).2, x ∈ seen ∨ x ∈ (pushUnseen l todo seen).1) := by
  induction l with
  | nil =>
    intro todo seen hnd hsub
    refine ⟨hnd, hsub, fun x hx => hx, fun x hx => hx, fun x hx => Or.inl hx,
      fun x hx => Or.inl hx, fun x hx => absurd hx (List.not_mem_nil x),
      fun x hx => Or.inl hx⟩
  | cons i is ih =>
    intro todo seen hnd hsub
    by_cases hi : i ∈ seen
    · have hred : pushUnseen (i :: is) todo seen = pushUnseen is todo seen := by
        show (if i ∈ seen then pushUnseen is todo seen
          else pushUnseen is (i :: todo) (i :: seen)) = pushUnseen is todo seen
        rw [if_pos hi]
      rw [hred]
      obtain ⟨p1, p2, p3, p4, p5, p6, p7, p8⟩ := ih todo seen hnd hsub
      refine ⟨p1, p2, p3, p4, ?_, ?_, ?_, p8⟩
      · intro x hx
        rcases p5 x hx with h | h
        · exact Or.inl h
        · exact Or.inr (List.mem_cons_of_mem _ h)
      · intro x hx
        rcases p6 x hx with h | h
        · exact Or.inl h
        · exact Or.inr (List.mem_cons_of_mem _ h)
      · intro x hx
        rcases List.mem_cons.mp hx with rfl | h
        · exact p3 x hi
        · exact p7 x h
    · have hred : pushUnseen (i :: is) todo seen = pushUnseen is (i :: todo) (i :: seen) := by
        show (if i ∈ seen then pushUnseen is todo seen
          else pushUnseen is (i :: todo) (i :: seen)) = pushUnseen is (i :: todo) (i :: seen)
        rw [if_neg hi]
      rw [hred]
      have hnd2 : (i :: todo).Nodup :=
        List.nodup_cons.mpr ⟨fun hit => hi (hsub i hit), hnd⟩
      have hsub2 : ∀ x ∈ i :: todo, x ∈ i :: seen := by
        intro x hx
        rcases List.mem_cons.mp hx with rfl | h
        · exact List.mem_cons_self _ _
        · exact List.mem_cons_of_mem _ (hsub x h)
      obtain ⟨p1, p2, p3, p4, p5, p6, p7, p8⟩ := ih (i :: todo) (i :: seen) hnd2 hsub2
      refine ⟨p1, p2, ?_, ?_, ?_, ?_, ?_, ?_⟩
      · intro x hx
        exact p3 x (List.mem_cons_of_mem _ hx)
      · intro x hx
        exact p4 x (List.mem_cons_of_mem _ hx)
      · intro x hx
        rcases p5 x hx with h | h
        · rcases List.mem_cons.mp h with rfl | h2
          · exact Or.inr (List.mem_cons_self _ _)
          · exact Or.inl h2
        · exact Or.inr (List.mem_cons_of_mem _ h)
      · intro x hx
        rcases p6 x hx with h | h
        · rcases List.mem_cons.mp h with rfl | h2
          · exact Or.inr (List.mem_cons_self _ _)
          · exact Or.inl h2
        · exact Or.inr (List.mem_cons_of_mem _ h)
      · intro x hx
        rcases List.mem_cons.mp hx with rfl | h
        · exact p3 x (List.mem_cons_self _ _)
        · exact p7 x h
      · intro x hx
        rcases p8 x hx with h | h
        · rcases List.mem_cons.mp h with rfl | h2
          · exact Or.inr (p4 x (List.mem_cons_self _ _))
          · exact Or.inl h2
        · exact Or.inr h

/-- The unseen count is bounded by the universe size. -/
theorem unseenLen_le (univ seen : List FQName) : unseenLen univ seen ≤ univ.length := by
  induction univ with
  | nil => simp [unseenLen]
  | cons u us ih =>
    unfold unseenLen
    by_cases h : u ∈ seen <;> simp [h] <;> omega

/-- Marking one more interface seen cannot increase the unseen count. -/
theorem unseenLen_cons_le (univ seen : List FQName) (i : FQName) :
    unseenLen univ (i :: seen) ≤ unseenLen univ seen := by
  induction univ with
  | nil => simp [unseenLen]
  | cons u us ih =>
    unfold unseenLen
    by_cases h : u ∈ seen
    · rw [if_pos h, if_pos (List.mem_cons_of_mem i h)]
      omega
    · rw [if_neg h]
      by_cases h2 : u ∈ i :: seen
      · rw [if_pos h2]
        omega
      · rw [if_neg h2]
        omega

/-- Marking an unseen universe interface seen strictly decreases the unseen
count. -/
theorem unseenLen_cons_lt (univ seen : List FQName) (i : FQName) (hu : i ∈ univ)
    (hs : i ∉ seen) : unseenLen univ (i :: seen) < unseenLen univ seen := by
  induction univ with
  | nil => cases hu
  | cons u us ih =>
    unfold unseenLen
    by_cases hui : u = i
    · subst hui
      rw [if_pos (List.mem_cons_self _ _), if_neg hs]
      have := unseenLen_cons_le us seen u
      omega
    · have hiu : i ∈ us := by
        rcases List.mem_cons.mp hu with h | h
        · exact absurd h.symm hui
        · exact h
      have hmem : (u ∈ i :: seen) ↔ u ∈ seen := by
        constructor
        · intro h
          rcases List.mem_cons.mp h with h2 | h2
          · exact absurd h2 hui
          · exact h2
        · exact List.mem_cons_of_mem i
      by_cases h : u ∈ seen
      · rw [if_pos h, if_pos (hmem.mpr h)]
        have := ih hiu
        omega
      · rw [if_neg h, if_neg (fun h2 => h (hmem.mp h2))]
        have := ih hiu
        omega

/-- One push pass does not increase the termination measure relative to the
stack it started from. -/
theorem pushUnseen_measure (l : List FQName) :
    ∀ (todo seen univ : List FQName), (∀ x ∈ l, x ∈ univ) →
      (pushUnseen l todo seen).1.length + unseenLen univ (pushUnseen l todo seen).2 ≤
        todo.length + unseenLen univ seen := by
  induction l with
  | nil =>
    intro todo seen univ _
    simp [pushUnseen]
  | cons i is ih =>
    intro todo seen univ hl
    by_cases hi : i ∈ seen
    · have hred : pushUnseen (i :: is) todo seen = pushUnseen is todo seen := by
        show (if i ∈ seen then pushUnseen is todo seen
          else pushUnseen is (i :: todo) (i :: seen)) = pushUnseen is todo seen
        rw [if_pos hi]
      rw [hred]
      exact ih todo seen univ (fun x hx => hl x (List.mem_cons_of_mem _ hx))
    · have hred : pushUnseen (i :: is) todo seen = pushUnseen is (i :: todo) (i :: seen) := by
        show (if i ∈ seen then pushUnseen is todo seen
          else pushUnseen is (i :: todo) (i :: seen)) = pushUnseen is (i :: todo) (i :: seen)
        rw [if_neg hi]
      rw [hred]
      have h1 := ih (i :: todo) (i :: seen) univ (fun x hx => hl x (List.mem_cons_of_mem _ hx))
      have h2 := unseenLen_cons_lt univ seen i (hl i (List.mem_cons_self _ _)) hi
      simp only [List.length_cons] at h1
      omega

/-- Invariant properties of expanding all imported packages of one parsed
interface: success under successful enumerations, monotone todo/seen, new
elements traced to an import, every enumerated interface absorbed into seen,
and every new seen element still on the stack. -/
theorem expandImports_spec (W : JavaWorld) (imps : List FQName) :
    ∀ (todo seen : List FQName), todo.Nodup → (∀ x ∈ todo, x ∈ seen) →
      (∀ p ∈ imps, ∃ l, W.interfacesOf p = some l) →
      ∃ todo' seen', expandImports W imps todo seen = some (todo', seen') ∧
        todo'.Nodup ∧ (∀ x ∈ todo', x ∈ seen') ∧
        (∀ x ∈ seen, x ∈ seen') ∧ (∀ x ∈ todo, x ∈ todo') ∧
        (∀ x ∈ todo', x ∈ todo ∨ ∃ p ∈ imps, ∃ l, W.interfacesOf p = some l ∧ x ∈ l) ∧
        (∀ x ∈ seen', x ∈ seen ∨ ∃ p ∈ imps, ∃ l, W.interfacesOf p = some l ∧ x ∈ l) ∧
        (∀ p ∈ imps, ∀ l, W.interfacesOf p = some l → ∀ x ∈ l, x ∈ seen') ∧
        (∀ x ∈ seen', x ∈ seen ∨ x ∈ todo') := by
  induction imps with
  | nil =>
    intro todo seen hnd hsub _
    refine ⟨todo, seen, rfl, hnd, hsub, fun x hx => hx, fun x hx => hx,
      fun x hx => Or.inl hx, fun x hx => Or.inl hx,
      fun p hp => absurd hp (List.not_mem_nil p), fun x hx => Or.inl hx⟩
  | cons p ps ih =>
    intro todo seen hnd hsub henum
    obtain ⟨l, hl⟩ := henum p (List.mem_cons_self _ _)
    obtain ⟨q1, q2, q3, q4, q5, q6, q7, q8⟩ := pushUnseen_spec l todo seen hnd hsub
    obtain ⟨todo', seen', heq, r1, r2, r3, r4, r5, r6, r7, r8⟩ :=
      ih (pushUnseen l todo seen).1 (pushUnseen l todo seen).2 q1 q2
        (fun q hq => henum q (List.mem_cons_of_mem _ hq))
    refine ⟨todo', seen', ?_, r1, r2, ?_, ?_, ?_, ?_, ?_, ?_⟩
    · show (match W.interfacesOf p with
        | none => none
        | some l => expandImports W ps (pushUnseen l todo seen).1
            (pushUnseen l todo seen).2) = some (todo', seen')
      rw [hl]
      exact heq
    · intro x hx
      exact r3 x (q3 x hx)
    · intro x hx
      exact r4 x (q4 x hx)
    · intro x hx
      rcases r5 x hx with h | ⟨q, hq, l2, hl2, hx2⟩
      · rcases q5 x h with h2 | h2
        · exact Or.inl h2
        · exact Or.inr ⟨p, List.mem_cons_self _ _, l, hl, h2⟩
      · exact Or.inr ⟨q, List.mem_cons_of_mem _ hq, l2, hl2, hx2⟩
    · intro x hx
      rcases r6 x hx with h | ⟨q, hq, l2, hl2, hx2⟩
      · rcases q6 x h with h2 | h2
        · exact Or.inl h2
        · exact Or.inr ⟨p, List.mem_cons_self _ _, l, hl, h2⟩
      · exact Or.inr ⟨q, List.mem_cons_of_mem _ hq, l2, hl2, hx2⟩
    · intro q hq l2 hl2 x hx
      rcases List.mem_cons.mp hq with rfl | hq2
      · rw [hl] at hl2
        cases hl2
        exact r3 x (q7 x hx)
      · exact r7 q hq2 l2 hl2 x hx
    · intro x hx
      rcases r8 x hx with h | h
      · rcases q8 x h with h2 | h2
        · exact Or.inl h2
        · exact Or.inr (r4 x h2)
      · exact Or.inr h

/-- Expanding imports does not increase the termination measure relative to
the stack it started from. -/
theorem expandImports_measure (W : JavaWorld) (imps : List FQName) :
    ∀ (todo seen univ todo' seen' : List FQName),
      expandImports W imps todo seen = some (todo', seen') →
      (∀ p ∈ imps, ∀ l, W.interfacesOf p = some l → ∀ x ∈ l, x ∈ univ) →
      todo'.length + unseenLen univ seen' ≤ todo.length + unseenLen univ seen := by
  induction imps with
  | nil =>
    intro todo seen univ todo' seen' heq _
    simp only [expandImports, Option.some.injEq, Prod.mk.injEq] at heq
    obtain ⟨rfl, rfl⟩ := heq
    exact Nat.le_refl _
  | cons p ps ih =>
    intro todo seen univ todo' seen' heq hU
    have heq2 : (match W.interfacesOf p with
        | none => none
        | some l => expandImports W ps (pushUnseen l todo seen).1
            (pushUnseen l todo seen).2) = some (todo', seen') := heq
    cases hl : W.interfacesOf p with
    | none =>
      rw [hl] at heq2
      cases heq2
    | some l =>
      rw [hl] at heq2
      have h1 := ih (pushUnseen l todo seen).1 (pushUnseen l todo seen).2 univ todo' seen'
        heq2 (fun q hq => hU q (List.mem_cons_of_mem _ hq))
      have h2 := pushUnseen_measure l todo seen univ (hU p (List.mem_cons_self _ _) l hl)
      omega

/-- When the stack is empty, every element of seen has been processed; a
processed-closed seen set contains every reachable interface, and each parsed
compatible. -/
theorem seen_closed_reaches (W : JavaWorld) (roots seen : List FQName)
    (hrs : ∀ x ∈ roots, x ∈ seen)
    (hproc : ∀ x ∈ seen, ∃ imps, W.parse x = some (true, imps) ∧
      ∀ p ∈ imps, ∃ l, W.interfacesOf p = some l ∧ ∀ i ∈ l, i ∈ seen) :
    ∀ x, Reaches W roots x → x ∈ seen ∧ JavaCompat W x := by
  intro x hx
  induction hx with
  | root hmem =>
    rename_i x'
    have hx' : x' ∈ seen := hrs x' hmem
    obtain ⟨imps, hp, -⟩ := hproc x' hx'
    exact ⟨hx', javaCompat_of_parse_true W x' imps hp⟩
  | step hy hpy hpmem henum hxmem ih =>
    rename_i x' y c imps l p
    obtain ⟨hyseen, -⟩ := ih
    obtain ⟨impsy, hpy', hclosed⟩ := hproc y hyseen
    rw [hpy] at hpy'
    simp only [Option.some.injEq, Prod.mk.injEq] at hpy'
    obtain ⟨-, himps⟩ := hpy'
    obtain ⟨l2, hl2, hsub2⟩ := hclosed p (himps ▸ hpmem)
    rw [henum] at hl2
    cases hl2
    have hxseen : x' ∈ seen := hsub2 x' hxmem
    obtain ⟨impsx, hpx, -⟩ := hproc x' hxseen
    exact ⟨hxseen, javaCompat_of_parse_true W x' impsx hpx⟩

/-- Main invariant theorem of the worklist loop: over a finite closed
universe of parseable interfaces, the loop terminates within the measure and
returns OK with the compatible flag true exactly when every reachable
interface is Java-compatible. -/
theorem isPackageJavaCompatibleLoop_spec (W : JavaWorld) (univ roots : List FQName)
    (hU : ∀ x ∈ univ, ∃ c imps, W.parse x = some (c, imps) ∧
      ∀ p ∈ imps, ∃ l, W.interfacesOf p = some l ∧ ∀ i ∈ l, i ∈ univ) :
    ∀ (fuel : Nat) (todo seen : List FQName),
      todo.Nodup → (∀ x ∈ todo, x ∈ seen) → (∀ x ∈ seen, x ∈ univ) →
      (∀ x ∈ seen, Reaches W roots x) → (∀ x ∈ roots, x ∈ seen) →
      (∀ x ∈ seen, x ∉ todo → ∃ imps, W.parse x = some (true, imps) ∧
        ∀ p ∈ imps, ∃ l, W.interfacesOf p = some l ∧ ∀ i ∈ l, i ∈ seen) →
      todo.length + unseenLen univ seen ≤ fuel →
      ∃ b, isPackageJavaCompatibleLoop W fuel todo seen = some (HStatus.compatible b) ∧
        (b = true ↔ ∀ x, Reaches W roots x → JavaCompat W x) := by
  intro fuel
  induction fuel with
  | zero =>
    intro todo seen hnd hts hsu hsr hrs hproc hfuel
    have htodo : todo = [] := by
      cases todo with
      | nil => rfl
      | cons a as => simp at hfuel
    subst htodo
    rw [isPackageJavaCompatibleLoop_nil]
    refine ⟨true, rfl, ?_⟩
    have hcl := seen_closed_reaches W roots seen hrs
      (fun x hx => hproc x hx (List.not_mem_nil x))
    exact ⟨fun _ x hx => (hcl x hx).2, fun _ => rfl⟩
  | succ f ih =>
    intro todo seen hnd hts hsu hsr hrs hproc hfuel
    cases todo with
    | nil =>
      rw [isPackageJavaCompatibleLoop_nil]
      refine ⟨true, rfl, ?_⟩
      have hcl := seen_closed_reaches W roots seen hrs
        (fun x hx => hproc x hx (List.not_mem_nil x))
      exact ⟨fun _ x hx => (hcl x hx).2, fun _ => rfl⟩
    | cons fq rest =>
      have hfqseen : fq ∈ seen := hts fq (List.mem_cons_self _ _)
      have hfquniv : fq ∈ univ := hsu fq hfqseen
      obtain ⟨c, imps, hparse, henum⟩ := hU fq hfquniv
      rw [isPackageJavaCompatibleLoop_cons, hparse]
      cases c with
      | false =>
        refine ⟨false, by simp, ?_⟩
        simp only [Bool.false_eq_true, false_iff]
        intro hall
        have hc := hall fq (hsr fq hfqseen) false imps hparse
        exact Bool.noConfusion hc
      | true =>
        obtain ⟨todo', seen', heq, s1, s2, s3, s4, s5, s6, s7, s8⟩ :=
          expandImports_spec W imps rest seen (List.Nodup.of_cons hnd)
            (fun x hx => hts x (List.mem_cons_of_mem _ hx))
            (fun p hp => (henum p hp).imp (fun l hl => hl.1))
        show ∃ b, (match expandImports W imps rest seen with
            | none => some HStatus.error
            | some r => isPackageJavaCompatibleLoop W f r.1 r.2) =
              some (HStatus.compatible b) ∧
          (b = true ↔ ∀ x, Reaches W roots x → JavaCompat W x)
        rw [heq]
        have hsu' : ∀ x ∈ seen', x ∈ univ := by
          intro x hx
          rcases s6 x hx with h | ⟨p, hp, l2, hl2, hx2⟩
          · exact hsu x h
          · obtain ⟨l3, hl3, hlu⟩ := henum p hp
            rw [hl2] at hl3
            cases hl3
            exact hlu x hx2
        have hsr' : ∀ x ∈ seen', Reaches W roots x := by
          intro x hx
          rcases s6 x hx with h | ⟨p, hp, l2, hl2, hx2⟩
          · exact hsr x h
          · exact Reaches.step (hsr fq hfqseen) hparse hp hl2 hx2
        have hrs' : ∀ x ∈ roots, x ∈ seen' := fun x hx => s3 x (hrs x hx)
        have hproc' : ∀ x ∈ seen', x ∉ todo' →
            ∃ imps2, W.parse x = some (true, imps2) ∧
              ∀ p ∈ imps2, ∃ l, W.interfacesOf p = some l ∧ ∀ i ∈ l, i ∈ seen' := by
          intro x hx hnx
          have hxseen : x ∈ seen := by
            rcases s8 x hx with h | h
            · exact h
            · exact absurd h hnx
          by_cases hxfq : x = fq
          · subst hxfq
            refine ⟨imps, hparse, ?_⟩
            intro p hp
            obtain ⟨l2, hl2, -⟩ := henum p hp
            exact ⟨l2, hl2, fun i hi => s7 p hp l2 hl2 i hi⟩
          · have hxnotrest : x ∉ rest := fun hxr => hnx (s4 x hxr)
            have hxnottodo : x ∉ fq :: rest := by
              intro hxt
              rcases List.mem_cons.mp hxt with h | h
              · exact hxfq h
              · exact hxnotrest h
            obtain ⟨imps2, hp2, hcl2⟩ := hproc x hxseen hxnottodo
            refine ⟨imps2, hp2, ?_⟩
            intro p hp
            obtain ⟨l2, hl2, hsub2⟩ := hcl2 p hp
            exact ⟨l2, hl2, fun i hi => s3 i (hsub2 i hi)⟩
        have hmeasure : todo'.length + unseenLen univ seen' ≤ f := by
          have h1 := expandImports_measure W imps rest seen univ todo' seen' heq
            (fun p hp l2 hl2 x hx => by
              obtain ⟨l3, hl3, hlu⟩ := henum p hp
              rw [hl2] at hl3
              cases hl3
              exact hlu x hx)
          simp only [List.length_cons] at hfuel
          omega
        exact ih todo' seen' s1 s2 hsu' hsr' hrs' hproc' hmeasure

/-- Claim C3: over a finite closed universe in which every interface parses
and every imported package enumerates, isPackageJavaCompatible (run with
enough fuel for its measure) returns OK with compatible = true iff every
interface reachable from the package through the transitive import graph is
Java-compatible; and whenever a parse along the traversal fails, the loop
returns the error status rather than OK with compatible = false. -/
theorem claim_C3_main :
    (∀ (W : JavaWorld) (univ roots : List FQName) (packageFQName : FQName),
      W.interfacesOf packageFQName = some roots →
      roots.Nodup →
      (∀ x ∈ roots, x ∈ univ) →
      (∀ x ∈ univ, ∃ c imps, W.parse x = some (c, imps) ∧
        ∀ p ∈ imps, ∃ l, W.interfacesOf p = some l ∧ ∀ i ∈ l, i ∈ univ) →
      ∃ b, isPackageJavaCompatible W (univ.length + roots.length + 1) packageFQName =
          some (HStatus.compatible b) ∧
        (b = true ↔ ∀ x, Reaches W roots x → JavaCompat W x)) ∧
    (∀ (W : JavaWorld) (fuel : Nat) (fq : FQName) (rest seen : List FQName),
      W.parse fq = none →
      isPackageJavaCompatibleLoop W (fuel + 1) (fq :: rest) seen = some HStatus.error) := by
  constructor
  · intro W univ roots packageFQName hroots hnd hru hU
    have hloop := isPackageJavaCompatibleLoop_spec W univ roots hU
      (univ.length + roots.length + 1) roots roots hnd (fun x hx => hx) hru
      (fun x hx => Reaches.root hx) (fun x hx => hx)
      (fun x hx hnx => absurd hx hnx)
      (by
        have := unseenLen_le univ roots
        omega)
    show ∃ b, (match W.interfacesOf packageFQName with
      | none => some HStatus.error
      | some ifaces => isPackageJavaCompatibleLoop W (univ.length + roots.length + 1)
          ifaces ifaces) = some (HStatus.compatible b) ∧
      (b = true ↔ ∀ x, Reaches W roots x → JavaCompat W x)
    rw [hroots]
    exact hloop
  · intro W fuel fq rest seen hparse
    rw [isPackageJavaCompatibleLoop_cons, hparse]

/-- Claim C3 (witness): the theorem at the concrete two-package world, and
the error return at an interface whose parse fails. -/
theorem claim_C3_witness :
    (∃ b, isPackageJavaCompatible c3WitnessWorld
        (([(⟨"a.b", "1.0", "IFoo"⟩ : FQName), ⟨"a.c", "1.0", "IBar"⟩] :
          List FQName).length + ([(⟨"a.b", "1.0", "IFoo"⟩ : FQName)] : List FQName).length + 1)
        ⟨"a.b", "1.0", ""⟩ = some (HStatus.compatible b) ∧
      (b = true ↔ ∀ x, Reaches c3WitnessWorld [⟨"a.b", "1.0", "IFoo"⟩] x →
        JavaCompat c3WitnessWorld x)) ∧
    isPackageJavaCompatibleLoop c3WitnessWorld 1 [⟨"zz", "1.0", "IZ"⟩] [] =
      some HStatus.error :=
  ⟨claim_C3_main.1 c3WitnessWorld [⟨"a.b", "1.0", "IFoo"⟩, ⟨"a.c", "1.0", "IBar"⟩]
      [⟨"a.b", "1.0", "IFoo"⟩] ⟨"a.b", "1.0", ""⟩ (by rfl) (by decide) (by decide)
      (by
        intro x hx
        fin_cases hx
        · exact ⟨true, [⟨"a.c", "1.0", ""⟩], rfl, by
            intro p hp
            fin_cases hp
            exact ⟨[⟨"a.c", "1.0", "IBar"⟩], rfl, by decide⟩⟩
        · exact ⟨true, [], rfl, by
            intro p hp
            exact absurd hp (List.not_mem_nil p)⟩),
   claim_C3_main.2 c3WitnessWorld 0 ⟨"zz", "1.0", "IZ"⟩ [] [] (by decide)⟩
